import Mathlib

/-!
# go-steamworks: leaderboard / global-stats continuations

A shallow embedding of the asynchronous operations of `steamworks_windows.go`
(`GetGlobalStats`, `ReadLeadboard`, `UploadLeaderboardScore` and the helpers they call), of
the synchronous accessors `Init`, `GetAppInstallDir`, `FileWrite`, `FileRead`, and of
`steamErrMsg.String` of `steamworks.go`.

Conventions of the embedding:

* Go `int`, `int32` values are `Int`; handles (`uint64`) and bytes are `Nat`.
  `int` arithmetic that can overflow goes through `wrapInt w` (`w` = width of `int`).
* A Go function with side effects returns the list of effects it performs, in order:
  native SDK calls, invocations of the caller's continuations, registrations with the
  callback dispatcher (`setCallback`), and a final `panic` when the Go code panics.
* The native SDK is an oracle `Env`: what each native call returns for given arguments.
  `dll.call` reports an error when the last-error code after the call is non-zero, and
  every caller then panics (`if err != nil { panic(err) }`). The oracle says when this
  happens for the two native calls that continuations make in a loop
  (`GetGlobalStatInt`, `GetDownloadedLeaderboardEntry`); for the other native calls the
  definitions describe the call that reports no error.
* `make` fails when the requested bytes exceed the runtime's bound `maxAlloc` (a panic) or
  the memory the machine has left (a fatal error); both end the run and are carried as a
  `Panic`.
-/

namespace Steamworks

/-! ## Data model -/

/-- Byte buffers (`[]byte`); every element is a byte value. -/
abbrev Bytes := List Nat

/-- Run-time panics the embedded code can raise, with the fatal out-of-memory error of the
runtime, which ends the program as a panic does. -/
inductive Panic where
  | indexOutOfRange
  | makesliceLenOutOfRange
  | sliceBoundsOutOfRange
  | decodeShortBuffer
  | outOfMemory
  | nativeCallError
  deriving DecidableEq, Repr

/-- The Go struct `GlobalStat` (`Name string; Value int`). -/
structure GlobalStat where
  Name : String
  Value : Int
  deriving DecidableEq, Repr

/-- Modelled from the spec: the declaration of `LeaderboardEntry_t` is missing from the
sources; the spec describes a row as owning user identifier, global rank and score (the
details travel separately). The Go zero value has every field zero. -/
structure LeaderboardEntry_t where
  SteamIDUser : Nat
  GlobalRank : Int
  Score : Int
  deriving DecidableEq, Repr

/-- The zero value `LeaderboardEntry_t{}`. -/
def LeaderboardEntry_t.zero : LeaderboardEntry_t := LeaderboardEntry_t.mk 0 0 0

/-- Modelled from the spec: the declaration of `LeaderboardFindResult_t` is missing from the
sources; the code reads its field `SteamLeaderboard` (the leaderboard identifier). -/
structure LeaderboardFindResult_t where
  SteamLeaderboard : Nat
  LeaderboardFound : Nat
  deriving DecidableEq, Repr

/-- Modelled from the spec: the declaration of `LeaderboardScoresDownloaded_t` is missing from
the sources; the code reads `SteamLeaderboardEntries` (entries handle) and `EntryCount`. -/
structure LeaderboardScoresDownloaded_t where
  SteamLeaderboard : Nat
  SteamLeaderboardEntries : Nat
  EntryCount : Int
  deriving DecidableEq, Repr

/-- Modelled from the spec: the declaration of `LeaderboardScoreUploaded_t` is missing from the
sources and the code never reads a field of it; the record is carried as the list of its
field values. -/
structure LeaderboardScoreUploaded_t where
  fields : List Int
  deriving DecidableEq, Repr

/-- Modelled from the spec: the declaration of `GlobalStatsReceived_t` is missing from the
sources and the code only prints it; the record is carried as the list of its field values. -/
structure GlobalStatsReceived_t where
  fields : List Int
  deriving DecidableEq, Repr

/-- Modelled from the spec: the constants `iCallbackExpected_*` are missing from the sources;
the tag says which result record a pending call is expected to produce. -/
inductive iCallbackExpected where
  | UserStatsReceived_t
  | GlobalStatsReceived_t
  | LeaderboardFindResult_t
  | LeaderboardScoresDownloaded_t
  | LeaderboardScoreUploaded_t
  deriving DecidableEq, Repr

/-- Native SDK calls issued through `theDLL.call`, with the arguments that matter. -/
inductive NativeCall where
  | RequestGlobalStats (historDays : Int)
  | GetGlobalStatInt (name : String)
  | FindLeaderboard (name : String)
  | DownloadLeaderboardEntries (leaderboard : Nat) (dataRequest rangeStart rangeEnd : Int)
  | GetDownloadedLeaderboardEntry (entries : Nat) (index detailsMax : Int)
  | UploadLeaderboardScore (leaderboard : Nat) (method score : Int) (buffer : List Int)
      (count : Int)
  | InitFlat
  | GetAppInstallDir (appID : Nat) (size : Nat)
  | FileWrite (file : String) (data : List Nat) (size : Nat)
  | FileRead (file : String) (size : Nat)
  deriving DecidableEq, Repr

/-- Observable actions: native calls, output, and invocations of the caller's continuations. -/
inductive Event where
  | native (c : NativeCall)
  | printData (d : GlobalStatsReceived_t)
  | globalStatsSuccess (values : List GlobalStat)
  | row (entry : LeaderboardEntry_t) (entryIndex entryCount : Int) (details : List Int)
  | uploadRet (ret : LeaderboardScoreUploaded_t)
  | timeout (callbackTime callbackSpend : Int)
  deriving DecidableEq, Repr

mutual
/-- One effect of running Go code: an observable event, the registration of a pending
record (`defaultCallbackCli().setCallback(&CallbackArgs...)`), or a panic (always last). -/
inductive Effect where
  | ev (e : Event)
  | register (r : CallbackArgs)
  | panic (p : Panic)
/-- The pending record handed to `setCallback`. -/
inductive CallbackArgs where
  | mk (CallbackAPI : Nat) (CallbackExpected : iCallbackExpected) (CallbaseSize : Int)
      (SuccessFunc : Bytes → List Effect) (TimeoutFunc : Int → Int → List Effect)
end

/-- Field `CallbackAPI`. -/
def CallbackArgs.CallbackAPI : CallbackArgs → Nat
  | .mk a _ _ _ _ => a

/-- Field `CallbackExpected`. -/
def CallbackArgs.CallbackExpected : CallbackArgs → iCallbackExpected
  | .mk _ k _ _ _ => k

/-- Field `CallbaseSize`. -/
def CallbackArgs.CallbaseSize : CallbackArgs → Int
  | .mk _ _ n _ _ => n

/-- Field `SuccessFunc`. -/
def CallbackArgs.SuccessFunc : CallbackArgs → Bytes → List Effect
  | .mk _ _ _ f _ => f

/-- Field `TimeoutFunc`. -/
def CallbackArgs.TimeoutFunc : CallbackArgs → Int → Int → List Effect
  | .mk _ _ _ _ g => g

/-- The native SDK as an oracle, together with the decoders and sizes whose declarations
are missing from the sources. -/
structure Env where
  /-- Width in bits of the Go type `int` on the build target (32 when `is32Bit`, else 64). -/
  intBits : Nat
  /-- Bytes of memory the machine can still give to one allocation. -/
  memoryLimit : Nat
  /-- Whether `dll.call` reports an error for `ISteamUserStats_GetGlobalStatInt`. -/
  errGetGlobalStatInt : String → Bool
  /-- Whether `dll.call` reports an error for `ISteamUserStats_GetDownloadedLeaderboardEntry`. -/
  errGetDownloadedLeaderboardEntry : Nat → Int → Int → Bool
  /-- Handle returned by `ISteamUserStats_RequestGlobalStats`. -/
  nativeRequestGlobalStats : Int → Nat
  /-- Return value of `ISteamUserStats_GetGlobalStatInt` and the value left in `statCount`. -/
  nativeGetGlobalStatInt : String → Nat × Int
  /-- Handle returned by `ISteamUserStats_FindLeaderboard`. -/
  nativeFindLeaderboard : String → Nat
  /-- Handle returned by `ISteamUserStats_DownloadLeaderboardEntries`. -/
  nativeDownloadLeaderboardEntries : Nat → Int → Int → Int → Nat
  /-- Return value of `ISteamUserStats_GetDownloadedLeaderboardEntry`, the row it stores (as
  read back by `FromCStruct`, a field-for-field copy) and the detail values it offers (at
  most `detailsMax` of them are stored). -/
  nativeGetDownloadedLeaderboardEntry : Nat → Int → Int → Nat × LeaderboardEntry_t × List Int
  /-- Handle returned by `ISteamUserStats_UploadLeaderboardScore`. -/
  nativeUploadLeaderboardScore : Nat → Int → Int → List Int → Int → Nat
  /-- Return value of `SteamAPI_InitFlat` and the bytes it stores in the message buffer. -/
  nativeInitFlat : Nat × List Nat
  /-- Return value of `ISteamApps_GetAppInstallDir` and the bytes it stores in the buffer. -/
  nativeGetAppInstallDir : Nat → Nat × List Nat
  /-- Return value of `ISteamRemoteStorage_FileWrite`. -/
  nativeFileWrite : String → List Nat → Nat
  /-- Return value of `ISteamRemoteStorage_FileRead` for a buffer of the given length, and
  the bytes it stores in the buffer. -/
  nativeFileRead : String → Nat → Nat × List Nat
  /-- `GlobalStatsReceived_t.Size()`. -/
  sizeGlobalStatsReceived : Int
  /-- `LeaderboardFindResult_t.Size()`. -/
  sizeLeaderboardFindResult : Int
  /-- `LeaderboardScoresDownloaded_t.Size()`. -/
  sizeLeaderboardScoresDownloaded : Int
  /-- `LeaderboardScoreUploaded_t.Size()`. -/
  sizeLeaderboardScoreUploaded : Int
  /-- `GlobalStatsReceived_t.FromByte`; `none` when the buffer is too short. -/
  decodeGlobalStatsReceived : Bytes → Option GlobalStatsReceived_t
  /-- `LeaderboardFindResult_t.FromByte`; `none` when the buffer is too short. -/
  decodeLeaderboardFindResult : Bytes → Option LeaderboardFindResult_t
  /-- `LeaderboardScoresDownloaded_t.FromByte`; `none` when the buffer is too short. -/
  decodeLeaderboardScoresDownloaded : Bytes → Option LeaderboardScoresDownloaded_t
  /-- `LeaderboardScoreUploaded_t.FromByte`; `none` when the buffer is too short. -/
  decodeLeaderboardScoreUploaded : Bytes → Option LeaderboardScoreUploaded_t

/-- Two's-complement wrap-around of `int` arithmetic on `w` bits. -/
def wrapInt (w : Nat) (x : Int) : Int :=
  (x + 2 ^ (w - 1)) % 2 ^ w - 2 ^ (w - 1)

/-- The bound `maxAlloc` of the Go runtime on the bytes of one allocation: `2^48` where
`int` has 64 bits, `2^32 - 1` where it has 32 bits (Go has no other width). -/
def maxAlloc (w : Nat) : Nat :=
  if w = 64 then 2 ^ 48 else if w = 32 then 2 ^ 32 - 1 else 0

/-- The largest number of bytes one `make` obtains: within `maxAlloc` and within the
memory the machine has left. -/
def allocLimit (env : Env) : Nat :=
  min (maxAlloc env.intBits) env.memoryLimit

/-- The Go builtin `make([]int32, n)` (4 bytes per element): panics when the length is
negative or its bytes exceed `maxAlloc`, ends the program when the machine has not that
much memory left, else gives `n` zeros. -/
def makeSlice (env : Env) (n : Int) : Except Panic (List Int) :=
  if n < 0 ∨ 4 * n > (maxAlloc env.intBits : Int) then
    Except.error Panic.makesliceLenOutOfRange
  else if 4 * n > (env.memoryLimit : Int) then Except.error Panic.outOfMemory
  else Except.ok (List.replicate n.toNat 0)

/-- The events of a run, registrations and the panic marker left out. -/
def events : List Effect → List Event
  | [] => []
  | Effect.ev e :: rest => e :: events rest
  | _ :: rest => events rest

/-- The pending records a run registered, in order. -/
def registered : List Effect → List CallbackArgs
  | [] => []
  | Effect.register r :: rest => r :: registered rest
  | _ :: rest => registered rest

/-- The panics of a run (at most one, at its end). -/
def panics : List Effect → List Panic
  | [] => []
  | Effect.panic p :: rest => p :: panics rest
  | _ :: rest => panics rest

/-- Whether an event is an invocation of the caller's `timeoutFunc`. -/
def Event.isTimeout : Event → Bool
  | .timeout _ _ => true
  | _ => false

/-- Whether an event is an invocation of the caller's row continuation. -/
def Event.isRow : Event → Bool
  | .row _ _ _ _ => true
  | _ => false

/-- Whether an event is an invocation of the caller's `retFunc`. -/
def Event.isUploadRet : Event → Bool
  | .uploadRet _ => true
  | _ => false

/-- Whether an event is an invocation of `GetGlobalStats`' `successFunc`. -/
def Event.isGlobalStatsSuccess : Event → Bool
  | .globalStatsSuccess _ => true
  | _ => false

/-- Whether an event is a native SDK call. -/
def Event.isNative : Event → Bool
  | .native _ => true
  | _ => false

/-- Whether an event is an invocation of any caller-supplied continuation. -/
def Event.isCallerContinuation (e : Event) : Bool :=
  e.isTimeout || e.isRow || e.isUploadRet || e.isGlobalStatsSuccess

/-! ## `GetGlobalStats` -/

/-- `requestGlobalStats`: issue the native request, return the call handle. -/
def requestGlobalStats (env : Env) (historDays : Int) : Nat × List Effect :=
  (env.nativeRequestGlobalStats historDays,
    [Effect.ev (Event.native (NativeCall.RequestGlobalStats historDays))])

/-- `getglobalStats`: one native call; a panic when `dll.call` reports an error, else
`statCount` as left by the native call and `byte(v) != 0`. The C string `cname` has the
terminating zero appended, so `&cname[0]` is always in range. -/
def getglobalStats (env : Env) (name : String) : Except Panic (Int × Bool) × List Effect :=
  if env.errGetGlobalStatInt name then
    (Except.error Panic.nativeCallError,
      [Effect.ev (Event.native (NativeCall.GetGlobalStatInt name))])
  else
    (Except.ok ((env.nativeGetGlobalStatInt name).2,
        (env.nativeGetGlobalStatInt name).1 % 256 != 0),
      [Effect.ev (Event.native (NativeCall.GetGlobalStatInt name))])

/-- One pass of the outer loop body of `GetGlobalStats` on `values`: scan for the first
`index` with `v >= vv.Value`; if found, rebuild the slice as
`values[:index] ++ [{name, v}] ++ values[index:]`, otherwise append `{name, v}`. -/
def insertGlobalStat (values : List GlobalStat) (name : String) (v : Int) : List GlobalStat :=
  match values.findIdx? (fun vv => decide (v ≥ vv.Value)) with
  | some index => values.take index ++ (GlobalStat.mk name v :: values.drop index)
  | none => values ++ [GlobalStat.mk name v]

/-- The loop `for _, name := range names` of the success continuation, from the slice
`values` over the names still to visit: the final `values` (or the panic of a lookup) and
the effects performed. -/
def globalStatsLoop (env : Env) :
    List String → List GlobalStat → Except Panic (List GlobalStat) × List Effect
  | [], values => (Except.ok values, [])
  | name :: rest, values =>
    match getglobalStats env name with
    | (Except.error p, effs) => (Except.error p, effs)
    | (Except.ok (v, _), effs) =>
      ((globalStatsLoop env rest (insertGlobalStat values name v)).1,
        effs ++ (globalStatsLoop env rest (insertGlobalStat values name v)).2)

/-- The `SuccessFunc` closure registered by `GetGlobalStats`. -/
def globalStatsSuccessFunc (env : Env) (names : List String) (ret : Bytes) : List Effect :=
  match env.decodeGlobalStatsReceived ret with
  | none => [Effect.panic Panic.decodeShortBuffer]
  | some d =>
    match globalStatsLoop env names [] with
    | (Except.error p, effs) => Effect.ev (Event.printData d) :: effs ++ [Effect.panic p]
    | (Except.ok values, effs) =>
      Effect.ev (Event.printData d) :: effs ++ [Effect.ev (Event.globalStatsSuccess values)]

/-- The `TimeoutFunc` closure registered by `GetGlobalStats`: an empty function body. -/
def globalStatsTimeoutFunc (_callbackTime _callbackSpend : Int) : List Effect := []

/-- The Go method `GetGlobalStats(names, successFunc)`. -/
def GetGlobalStats (env : Env) (names : List String) : List Effect :=
  let r := requestGlobalStats env 0
  r.2 ++ [Effect.register (CallbackArgs.mk r.1 iCallbackExpected.GlobalStatsReceived_t
    env.sizeGlobalStatsReceived (globalStatsSuccessFunc env names) globalStatsTimeoutFunc)]

/-! ## Leaderboards -/

/-- `findLeaderboard`: issue the native request, return the call handle. The C string
`cname` has the terminating zero appended, so `&cname[0]` is always in range. -/
def findLeaderboard (env : Env) (leaderboardName : String) : Nat × List Effect :=
  (env.nativeFindLeaderboard leaderboardName,
    [Effect.ev (Event.native (NativeCall.FindLeaderboard leaderboardName))])

/-- `downloadLeaderboardEntries`: issue the native request, return the call handle. -/
def downloadLeaderboardEntries (env : Env) (leaderboard : Nat)
    (dataRequest rangeStart rangeEnd : Int) : Nat × List Effect :=
  (env.nativeDownloadLeaderboardEntries leaderboard dataRequest rangeStart rangeEnd,
    [Effect.ev (Event.native
      (NativeCall.DownloadLeaderboardEntries leaderboard dataRequest rangeStart rangeEnd))])

/-- The native call storing detail values into the buffer: the offered values overwrite
the front of the buffer. -/
def storeDetails (buffer offered : List Int) : List Int :=
  offered ++ buffer.drop offered.length

/-- `getDownloadedLeaderboardEntry(entries, index, detailsMax)`: the result (or the panic)
and the effects performed. The buffer is `make([]int32, detailsMax+1)`, its element 0 is
addressed, the native call stores at most `detailsMax` values, the function panics when
`dll.call` reports an error, and the result is `details[:detailsMax]`. -/
def getDownloadedLeaderboardEntry (env : Env) (entries : Nat) (index detailsMax : Int) :
    Except Panic (Bool × LeaderboardEntry_t × List Int) × List Effect :=
  match makeSlice env (wrapInt env.intBits (detailsMax + 1)) with
  | Except.error p => (Except.error p, [])
  | Except.ok details =>
    if details.length = 0 then (Except.error Panic.indexOutOfRange, [])
    else
      let r := env.nativeGetDownloadedLeaderboardEntry entries index detailsMax
      let call := [Effect.ev (Event.native
        (NativeCall.GetDownloadedLeaderboardEntry entries index detailsMax))]
      if env.errGetDownloadedLeaderboardEntry entries index detailsMax then
        (Except.error Panic.nativeCallError, call)
      else
        let filled := storeDetails details (r.2.2.take detailsMax.toNat)
        if detailsMax < 0 ∨ (filled.length : Int) < detailsMax then
          (Except.error Panic.sliceBoundsOutOfRange, call)
        else
          (Except.ok (r.1 % 256 != 0, r.2.1, filled.take detailsMax.toNat), call)

/-- The row loop `for i := 0; i < entryCount; i++` of the download continuation, over the
indices still to visit. A panic in `getDownloadedLeaderboardEntry` ends the run. -/
def rowLoop (env : Env) (entries : Nat) (entryCount detailsMax : Int) :
    List Nat → List Effect
  | [] => []
  | i :: rest =>
    match getDownloadedLeaderboardEntry env entries (i : Int) detailsMax with
    | (Except.error p, effs) => effs ++ [Effect.panic p]
    | (Except.ok (_, entry, details), effs) =>
      effs ++ Effect.ev (Event.row entry (i : Int) entryCount details) ::
        rowLoop env entries entryCount detailsMax rest

/-- The caller's `timeoutFunc`, as invoked by every `TimeoutFunc` closure of
`ReadLeadboard` and `UploadLeaderboardScore`. -/
def callerTimeoutFunc (callbackTime callbackSpend : Int) : List Effect :=
  [Effect.ev (Event.timeout callbackTime callbackSpend)]

/-- The download-step `SuccessFunc` closure registered inside `ReadLeadboard`. -/
def downloadSuccessFunc (env : Env) (detailsMax : Int) (ret : Bytes) : List Effect :=
  match env.decodeLeaderboardScoresDownloaded ret with
  | none => [Effect.panic Panic.decodeShortBuffer]
  | some l =>
    if l.EntryCount = 0 then
      [Effect.ev (Event.row LeaderboardEntry_t.zero (-1) l.EntryCount [])]
    else
      rowLoop env l.SteamLeaderboardEntries l.EntryCount detailsMax
        (List.range l.EntryCount.toNat)

/-- The download-step record registered inside `ReadLeadboard`. -/
def downloadRecord (env : Env) (detailsMax : Int) (downCall : Nat) : CallbackArgs :=
  CallbackArgs.mk downCall iCallbackExpected.LeaderboardScoresDownloaded_t
    env.sizeLeaderboardScoresDownloaded (downloadSuccessFunc env detailsMax)
    (fun callbackTime callbackSpend => callerTimeoutFunc callbackTime callbackSpend)

/-- The find-step `SuccessFunc` closure registered by `ReadLeadboard`. -/
def readFindSuccessFunc (env : Env) (dataRequest rangeStart rangeEnd detailsMax : Int)
    (ret : Bytes) : List Effect :=
  match env.decodeLeaderboardFindResult ret with
  | none => [Effect.panic Panic.decodeShortBuffer]
  | some data =>
    let r := downloadLeaderboardEntries env data.SteamLeaderboard dataRequest rangeStart rangeEnd
    r.2 ++ [Effect.register (downloadRecord env detailsMax r.1)]

/-- The Go method `ReadLeadboard`. -/
def ReadLeadboard (env : Env) (leaderboardName : String)
    (dataRequest rangeStart rangeEnd detailsMax : Int) : List Effect :=
  let r := findLeaderboard env leaderboardName
  r.2 ++ [Effect.register (CallbackArgs.mk r.1 iCallbackExpected.LeaderboardFindResult_t
    env.sizeLeaderboardFindResult
    (readFindSuccessFunc env dataRequest rangeStart rangeEnd detailsMax)
    (fun callbackTime callbackSpend => callerTimeoutFunc callbackTime callbackSpend))]

/-- The unexported `uploadLeaderboardScore`: `scoreDetails = append(scoreDetails, 0)`, the
address of element 0 is taken, and the count passed is `len(scoreDetails)-1`. -/
def uploadLeaderboardScore (env : Env) (leaderboard : Nat) (uploadScoreMethod score : Int)
    (scoreDetails : List Int) : Except Panic Nat × List Effect :=
  let buffer := scoreDetails ++ [0]
  if buffer.length = 0 then (Except.error Panic.indexOutOfRange, [])
  else
    (Except.ok (env.nativeUploadLeaderboardScore leaderboard uploadScoreMethod score buffer
        ((buffer.length : Int) - 1)),
      [Effect.ev (Event.native (NativeCall.UploadLeaderboardScore leaderboard uploadScoreMethod
        score buffer ((buffer.length : Int) - 1)))])

/-- The upload-step `SuccessFunc` closure registered inside `UploadLeaderboardScore`. -/
def uploadSuccessFunc (env : Env) (ret : Bytes) : List Effect :=
  match env.decodeLeaderboardScoreUploaded ret with
  | none => [Effect.panic Panic.decodeShortBuffer]
  | some u => [Effect.ev (Event.uploadRet u)]

/-- The upload-step record registered inside `UploadLeaderboardScore`. -/
def uploadRecord (env : Env) (uploadCall : Nat) : CallbackArgs :=
  CallbackArgs.mk uploadCall iCallbackExpected.LeaderboardScoreUploaded_t
    env.sizeLeaderboardScoreUploaded (uploadSuccessFunc env)
    (fun callbackTime callbackSpend => callerTimeoutFunc callbackTime callbackSpend)

/-- The find-step `SuccessFunc` closure registered by `UploadLeaderboardScore`. -/
def uploadFindSuccessFunc (env : Env) (uploadScoreMethod score : Int) (scoreDetails : List Int)
    (ret : Bytes) : List Effect :=
  match env.decodeLeaderboardFindResult ret with
  | none => [Effect.panic Panic.decodeShortBuffer]
  | some data =>
    match uploadLeaderboardScore env data.SteamLeaderboard uploadScoreMethod score
        scoreDetails with
    | (Except.error p, effs) => effs ++ [Effect.panic p]
    | (Except.ok uploadCall, effs) => effs ++ [Effect.register (uploadRecord env uploadCall)]

/-- The Go method `UploadLeaderboardScore`. -/
def UploadLeaderboardScore (env : Env) (leaderboardName : String)
    (uploadScoreMethod score : Int) (scoreDetails : List Int) : List Effect :=
  let r := findLeaderboard env leaderboardName
  r.2 ++ [Effect.register (CallbackArgs.mk r.1 iCallbackExpected.LeaderboardFindResult_t
    env.sizeLeaderboardFindResult
    (uploadFindSuccessFunc env uploadScoreMethod score scoreDetails)
    (fun callbackTime callbackSpend => callerTimeoutFunc callbackTime callbackSpend))]

/-! ## Synchronous accessors -/

/-- The Go type `steamErrMsg`, an array `[1024]byte`. -/
structure steamErrMsg where
  bytes : Bytes
  size : bytes.length = 1024

/-- `steamErrMsg.String`: the loop `for i, b := range s` returns `string(s[:i])` at the
first index `i` whose byte is zero, and the empty string when the loop ends. -/
def steamErrMsg.String (s : steamErrMsg) : Bytes :=
  match s.bytes.findIdx? (fun b => b == 0) with
  | some i => s.bytes.take i
  | none => []

/-- The native call storing bytes into a buffer: the stored bytes overwrite its front. -/
def storeBytes (buffer stored : Bytes) : Bytes :=
  stored ++ buffer.drop stored.length

/-- The array `msg` of `Init` after the native call: 1024 zero bytes, overwritten by what
the SDK stores (at most 1024 bytes). -/
def initMessage (env : Env) : steamErrMsg :=
  steamErrMsg.mk (storeBytes (List.replicate 1024 0) (env.nativeInitFlat.2.take 1024))
    (by
      rw [storeBytes, List.length_append, List.length_drop, List.length_replicate,
        List.length_take]
      omega)

/-- The Go function `Init`: `none` for a `nil` error, else the result code and the message
formatted into the error (`ESteamAPIInitResult(v)` and `msg.String()`). -/
def Init (env : Env) : Option (Int × Bytes) × List Effect :=
  (if wrapInt 32 (env.nativeInitFlat.1 : Int) ≠ 0 then
      some (wrapInt 32 (env.nativeInitFlat.1 : Int), (initMessage env).String)
    else none,
    [Effect.ev (Event.native NativeCall.InitFlat)])

/-- The array `path` of `GetAppInstallDir` after the native call: 4096 zero bytes,
overwritten by what the SDK stores (at most 4096 bytes). -/
def installDirBuffer (env : Env) (appID : Nat) : Bytes :=
  storeBytes (List.replicate 4096 0) ((env.nativeGetAppInstallDir appID).2.take 4096)

/-- The slice bound `uint32(v)-1` of `GetAppInstallDir`: truncation to 32 bits, then an
unsigned 32-bit subtraction. -/
def installDirBound (v : Nat) : Nat :=
  (v % 2 ^ 32 + 2 ^ 32 - 1) % 2 ^ 32

/-- The Go method `GetAppInstallDir(appID)`: `string(path[:uint32(v)-1])`; the slice
expression panics when the bound exceeds the length of the array. -/
def GetAppInstallDir (env : Env) (appID : Nat) : Except Panic Bytes × List Effect :=
  let path := installDirBuffer env appID
  let call := [Effect.ev (Event.native (NativeCall.GetAppInstallDir appID 4096))]
  if installDirBound (env.nativeGetAppInstallDir appID).1 ≤ path.length then
    (Except.ok (path.take (installDirBound (env.nativeGetAppInstallDir appID).1)), call)
  else
    (Except.error Panic.sliceBoundsOutOfRange, call)

/-- The Go method `FileWrite(file, data)`: the arguments `&cfile[0]` and `&data[0]` are
evaluated before the native call; `cfile` ends with the appended zero byte and is never
empty; the result is `byte(v) != 0`. -/
def FileWrite (env : Env) (file : String) (data : Bytes) : Except Panic Bool × List Effect :=
  if data.length = 0 then (Except.error Panic.indexOutOfRange, [])
  else
    (Except.ok (env.nativeFileWrite file data % 256 != 0),
      [Effect.ev (Event.native (NativeCall.FileWrite file data data.length))])

/-- The Go method `FileRead(file, data)`: as `FileWrite` up to the native call; the result
is `int32(v)`, and the buffer `data` holds what the SDK stored (at most `len(data)` bytes). -/
def FileRead (env : Env) (file : String) (data : Bytes) :
    Except Panic (Int × Bytes) × List Effect :=
  if data.length = 0 then (Except.error Panic.indexOutOfRange, [])
  else
    (Except.ok (wrapInt 32 ((env.nativeFileRead file data.length).1 : Int),
        storeBytes data ((env.nativeFileRead file data.length).2.take data.length)),
      [Effect.ev (Event.native (NativeCall.FileRead file data.length))])

/-! ## A concrete environment -/

/-- A native SDK stub used to evaluate the definitions on concrete inputs: statistics
`a = 5`, `b = 9`, `c = 2`, every other name `0`; row `i` of any download belongs to user
`100 + i` with detail values `7, 8, 9` on offer; buffers decode field by field. -/
def sampleEnv : Env where
  intBits := 64
  memoryLimit := 2 ^ 32
  errGetGlobalStatInt := fun _ => false
  errGetDownloadedLeaderboardEntry := fun _ _ _ => false
  nativeRequestGlobalStats := fun _ => 11
  nativeGetGlobalStatInt := fun name =>
    if name = "a" then (1, 5) else if name = "b" then (1, 9) else if name = "c" then (1, 2)
    else (0, 0)
  nativeFindLeaderboard := fun name => name.length
  nativeDownloadLeaderboardEntries := fun leaderboard _ _ _ => leaderboard + 1
  nativeGetDownloadedLeaderboardEntry := fun _ index _ =>
    (1, LeaderboardEntry_t.mk (100 + index.toNat) (index + 1) (50 - index), [7, 8, 9])
  nativeUploadLeaderboardScore := fun leaderboard _ _ _ _ => leaderboard + 2
  nativeInitFlat := (2, [110, 111])
  nativeGetAppInstallDir := fun appID =>
    if appID = 480 then (4, [67, 58, 92, 0]) else (0, [])
  nativeFileWrite := fun _ _ => 1
  nativeFileRead := fun _ size => (min size 3, [1, 2, 3])
  sizeGlobalStatsReceived := 2
  sizeLeaderboardFindResult := 2
  sizeLeaderboardScoresDownloaded := 3
  sizeLeaderboardScoreUploaded := 2
  decodeGlobalStatsReceived := fun b =>
    match b with
    | x :: y :: _ => some (GlobalStatsReceived_t.mk [(x : Int), (y : Int)])
    | _ => none
  decodeLeaderboardFindResult := fun b =>
    match b with
    | x :: y :: _ => some (LeaderboardFindResult_t.mk x y)
    | _ => none
  decodeLeaderboardScoresDownloaded := fun b =>
    match b with
    | x :: y :: z :: _ => some (LeaderboardScoresDownloaded_t.mk x y (z : Int))
    | _ => none
  decodeLeaderboardScoreUploaded := fun b =>
    match b with
    | x :: y :: _ => some (LeaderboardScoreUploaded_t.mk [(x : Int), (y : Int)])
    | _ => none

/-! ## Vocabulary of the statements -/

/-- The list `GetGlobalStats` hands to `successFunc`: the final value of `values`, every
name inserted with the value its lookup left in `statCount`. -/
def deliveredGlobalStats (env : Env) (names : List String) : List GlobalStat :=
  names.foldl (fun values name =>
    insertGlobalStat values name (env.nativeGetGlobalStatInt name).2) []

/-- The names whose lookup the loop of `GetGlobalStats` makes: every name up to and
including the first one whose native call reports an error. -/
def attemptedLookups (env : Env) : List String → List String
  | [] => []
  | name :: rest =>
    if env.errGetGlobalStatInt name then [name] else name :: attemptedLookups env rest

/-- The environment `sampleEnv` on a machine with 64 bytes of memory left, where the
lookup of the stat `b` and the fetch of row `1` report a native-call error. -/
def faultyEnv : Env :=
  { sampleEnv with
    memoryLimit := 64
    errGetGlobalStatInt := fun name => name == "b"
    errGetDownloadedLeaderboardEntry := fun _ index _ => index == 1 }

/-- The row the native call stores for `index`. -/
def fetchedEntry (env : Env) (entries : Nat) (index detailsMax : Int) : LeaderboardEntry_t :=
  (env.nativeGetDownloadedLeaderboardEntry entries index detailsMax).2.1

/-- The details the native call stores for `index`: the first `detailsMax` offered values,
followed by the zeros the buffer was created with. -/
def fetchedDetails (env : Env) (entries : Nat) (index detailsMax : Int) : List Int :=
  (env.nativeGetDownloadedLeaderboardEntry entries index detailsMax).2.2.take detailsMax.toNat ++
    List.replicate (detailsMax.toNat -
      ((env.nativeGetDownloadedLeaderboardEntry entries index detailsMax).2.2.take
        detailsMax.toNat).length) 0

/-- The records registered by the find-step `SuccessFunc` of the records an operation
registered, when the find step completes with buffer `findRet`. -/
def secondStepRecords (op : List Effect) (findRet : Bytes) : List CallbackArgs :=
  (registered op).flatMap (fun r => registered (r.SuccessFunc findRet))

/-- The details carried by a row event (no details for any other event). -/
def Event.rowDetails : Event → List Int
  | .row _ _ _ details => details
  | _ => []

/-- Whether an event is the native upload call. -/
def Event.isNativeUpload : Event → Bool
  | .native (NativeCall.UploadLeaderboardScore _ _ _ _ _) => true
  | _ => false

/-! ## The callback dispatcher -/

/-- Modelled from the spec: the dispatcher's pending-call record (`PendingCall`) is missing
from the sources. It is the record handed to `setCallback` together with `issuedAt`, the
timestamp of registration. -/
structure PendingCall where
  record : CallbackArgs
  issuedAt : Int

/-- The call handle of a pending record. -/
def PendingCall.handle (p : PendingCall) : Nat := p.record.CallbackAPI

/-- Modelled from the spec: what one poll of the SDK's "get async call result" operation
reports for a pending call (section 4.2, steps 2 to 4): not yet complete, complete with the
failure flag set (or otherwise abandoned), or complete successfully with the result buffer. -/
inductive PollOutcome where
  | notComplete
  | aborted
  | completed (buffer : Bytes)
  deriving DecidableEq, Repr

/-- What a pump pass does, in order: polls, continuation firings, and the events of the
continuations it runs. -/
inductive PumpAction where
  | polled (handle : Nat)
  | firedSuccess (handle : Nat)
  | firedTimeout (handle : Nat)
  | event (e : Event)
  deriving DecidableEq, Repr

/-- The state of a pump pass: the pending set, the actions so far, and whether a
continuation panicked (which ends the pass). -/
structure PumpState where
  pending : List PendingCall
  log : List PumpAction
  panicked : Bool

/-- Modelled from the spec: `registerPendingCall` (the missing `setCallback`) adds a new
pending record; pure bookkeeping. -/
def registerPendingCall (pending : List PendingCall) (r : CallbackArgs) (now : Int) :
    List PendingCall :=
  pending ++ [PendingCall.mk r now]

/-- Registration of every record a continuation registered, in order. -/
def registerAll (pending : List PendingCall) (rs : List CallbackArgs) (now : Int) :
    List PendingCall :=
  rs.foldl (fun acc r => registerPendingCall acc r now) pending

/-- Modelled from the spec: removal of the record of a completed call from the pending set;
the record is identified by its call handle. -/
def removePending (pending : List PendingCall) (handle : Nat) : List PendingCall :=
  pending.filter (fun q => q.handle != handle)

/-- Modelled from the spec: steps 3 to 5 of `pump` for a completed call. The continuation
has run with effects `effs`: its registrations are in the pending set, and the record is
removed strictly after the continuation returns. The spec is silent on a continuation that
panics; by the semantics of Go it does not return, so the record is not removed and the
pass ends. -/
def resolve (now : Int) (st : PumpState) (p : PendingCall) (fired : PumpAction)
    (effs : List Effect) : PumpState :=
  if (panics effs).isEmpty then
    PumpState.mk (removePending (registerAll st.pending (registered effs) now) p.handle)
      (st.log ++ fired :: (events effs).map PumpAction.event) false
  else
    PumpState.mk (registerAll st.pending (registered effs) now)
      (st.log ++ fired :: (events effs).map PumpAction.event) true

/-- Modelled from the spec: the body of `pump` for one pending record (section 4.2, steps 1
to 5): poll; not complete leaves the record pending; a failed or abandoned call fires
`TimeoutFunc` with the current time and the time elapsed since `issuedAt`; a successful
call fires `SuccessFunc` with the result buffer. -/
def visit (poll : Nat → iCallbackExpected → Int → PollOutcome) (now : Int) (st : PumpState)
    (p : PendingCall) : PumpState :=
  if st.panicked then st
  else
    match poll p.record.CallbackAPI p.record.CallbackExpected p.record.CallbaseSize with
    | PollOutcome.notComplete =>
      PumpState.mk st.pending (st.log ++ [PumpAction.polled p.handle]) false
    | PollOutcome.aborted =>
      resolve now (PumpState.mk st.pending (st.log ++ [PumpAction.polled p.handle]) false) p
        (PumpAction.firedTimeout p.handle) (p.record.TimeoutFunc now (now - p.issuedAt))
    | PollOutcome.completed buffer =>
      resolve now (PumpState.mk st.pending (st.log ++ [PumpAction.polled p.handle]) false) p
        (PumpAction.firedSuccess p.handle) (p.record.SuccessFunc buffer)

/-- The pump pass after its first `k` visits: the records pending when the pass starts are
visited in order, each once. -/
def pumpUpTo (poll : Nat → iCallbackExpected → Int → PollOutcome) (now : Int)
    (pending : List PendingCall) (k : Nat) : PumpState :=
  (pending.take k).foldl (visit poll now) (PumpState.mk pending [] false)

/-- Modelled from the spec: `pump()`, one pass over every record pending when it starts. -/
def pump (poll : Nat → iCallbackExpected → Int → PollOutcome) (now : Int)
    (pending : List PendingCall) : PumpState :=
  pending.foldl (visit poll now) (PumpState.mk pending [] false)

/-- Whether an action polls the call `handle`. -/
def PumpAction.isPolledOf (handle : Nat) : PumpAction → Bool
  | .polled h => h == handle
  | _ => false

/-- The actions of a pass for one record, when its continuation returns. -/
def visitActions (poll : Nat → iCallbackExpected → Int → PollOutcome) (now : Int)
    (p : PendingCall) : List PumpAction :=
  match poll p.record.CallbackAPI p.record.CallbackExpected p.record.CallbaseSize with
  | PollOutcome.notComplete => [PumpAction.polled p.handle]
  | PollOutcome.aborted =>
    PumpAction.polled p.handle :: PumpAction.firedTimeout p.handle ::
      (events (p.record.TimeoutFunc now (now - p.issuedAt))).map PumpAction.event
  | PollOutcome.completed buffer =>
    PumpAction.polled p.handle :: PumpAction.firedSuccess p.handle ::
      (events (p.record.SuccessFunc buffer)).map PumpAction.event

/-- The pending set right after an operation ran at time `now` on an empty dispatcher. -/
def pendingAfter (op : List Effect) (now : Int) : List PendingCall :=
  registerAll [] (registered op) now

/-- A poll stub: the call with handle `5` is complete with buffer `[3, 1]`, the call with
handle `9` has failed, every other call is not yet complete. -/
def samplePoll (handle : Nat) (_expected : iCallbackExpected) (_size : Int) : PollOutcome :=
  if handle = 5 then PollOutcome.completed [3, 1]
  else if handle = 9 then PollOutcome.aborted
  else PollOutcome.notComplete

/-- A pending set: the find-step record of a `ReadLeadboard` call (handle `5`) and the record
of a `GetGlobalStats` call (handle `11`), both registered at time `5`. -/
def samplePending : List PendingCall :=
  registerAll [] (registered (ReadLeadboard sampleEnv "board" 0 0 10 2) ++
    registered (GetGlobalStats sampleEnv ["a"])) 5

/-- A message buffer holding `no` followed by zero bytes. -/
def sampleErrMsg : steamErrMsg :=
  steamErrMsg.mk ([110, 111] ++ List.replicate 1022 0)
    (by rw [List.length_append, List.length_replicate]; rfl)

/-- A message buffer filled with 1024 bytes `A`, none of them zero. -/
def fullErrMsg : steamErrMsg :=
  steamErrMsg.mk (List.replicate 1024 65) (List.length_replicate 1024 65)

/-- The call handle an action polls, if it is a poll. -/
def PumpAction.polledHandle? : PumpAction → Option Nat
  | .polled h => some h
  | _ => none

theorem insertGlobalStat_nil (name : String) (v : Int) :
    insertGlobalStat [] name v = [GlobalStat.mk name v] := by
  simp [insertGlobalStat]

theorem insertGlobalStat_cons (vv : GlobalStat) (rest : List GlobalStat) (name : String)
    (v : Int) :
    insertGlobalStat (vv :: rest) name v =
      if v ≥ vv.Value then GlobalStat.mk name v :: vv :: rest
      else vv :: insertGlobalStat rest name v := by
  unfold insertGlobalStat
  by_cases h : v ≥ vv.Value
  · simp [List.findIdx?_cons, h]
  · simp only [List.findIdx?_cons, h, decide_False, if_false, zero_add, List.findIdx?_succ]
    cases hf : List.findIdx? (fun vv => decide (v ≥ vv.Value)) rest with
    | none => simp
    | some k => simp

theorem insertGlobalStat_perm (values : List GlobalStat) (name : String) (v : Int) :
    (insertGlobalStat values name v).Perm (GlobalStat.mk name v :: values) := by
  induction values with
  | nil => simp [insertGlobalStat_nil]
  | cons vv rest ih =>
    rw [insertGlobalStat_cons]
    split
    · exact List.Perm.refl _
    · exact (List.Perm.cons vv ih).trans (List.Perm.swap _ _ _)

theorem insertGlobalStat_length (values : List GlobalStat) (name : String) (v : Int) :
    (insertGlobalStat values name v).length = values.length + 1 := by
  simpa using (insertGlobalStat_perm values name v).length_eq

theorem insertGlobalStat_sorted (values : List GlobalStat) (name : String) (v : Int)
    (h : values.Pairwise (fun x y => x.Value ≥ y.Value)) :
    (insertGlobalStat values name v).Pairwise (fun x y => x.Value ≥ y.Value) := by
  induction values with
  | nil => simp [insertGlobalStat_nil]
  | cons vv rest ih =>
    rw [insertGlobalStat_cons]
    rw [List.pairwise_cons] at h
    split
    · rename_i hge
      refine List.pairwise_cons.mpr ⟨?_, List.pairwise_cons.mpr h⟩
      intro y hy
      rcases List.mem_cons.mp hy with rfl | hy
      · exact hge
      · exact le_trans (h.1 y hy) hge
    · rename_i hlt
      refine List.pairwise_cons.mpr ⟨?_, ih h.2⟩
      intro y hy
      rcases List.mem_cons.mp ((insertGlobalStat_perm rest name v).mem_iff.mp hy) with rfl | hy
      · simp only [ge_iff_le, not_le] at hlt
        exact le_of_lt hlt
      · exact h.1 y hy

theorem deliveredFrom_sorted (env : Env) (names : List String) (start : List GlobalStat)
    (h : start.Pairwise (fun x y => x.Value ≥ y.Value)) :
    (names.foldl (fun values name =>
        insertGlobalStat values name (env.nativeGetGlobalStatInt name).2) start).Pairwise
      (fun x y => x.Value ≥ y.Value) := by
  induction names generalizing start with
  | nil => simpa using h
  | cons n rest ih =>
    rw [List.foldl_cons]
    exact ih _ (insertGlobalStat_sorted _ _ _ h)

theorem attemptedLookups_of_noError (env : Env) (names : List String)
    (h : ∀ n ∈ names, env.errGetGlobalStatInt n = false) :
    attemptedLookups env names = names := by
  induction names with
  | nil => rfl
  | cons n rest ih =>
    rw [attemptedLookups, h n (List.mem_cons_self _ _)]
    simp [ih (fun m hm => h m (List.mem_cons_of_mem _ hm))]

/-- The loop of `GetGlobalStats`: it looks up every name up to the first lookup that
reports an error, and ends with all names inserted exactly when no lookup does. -/
theorem globalStatsLoop_eq (env : Env) (names : List String) (start : List GlobalStat) :
    globalStatsLoop env names start =
      (if names.all (fun n => !env.errGetGlobalStatInt n) then
          Except.ok (names.foldl (fun values name =>
            insertGlobalStat values name (env.nativeGetGlobalStatInt name).2) start)
        else Except.error Panic.nativeCallError,
        (attemptedLookups env names).map
          (fun n => Effect.ev (Event.native (NativeCall.GetGlobalStatInt n)))) := by
  induction names generalizing start with
  | nil => simp [globalStatsLoop, attemptedLookups]
  | cons n rest ih =>
    by_cases herr : env.errGetGlobalStatInt n = true
    · simp [globalStatsLoop, getglobalStats, attemptedLookups, herr]
    · have herr2 : env.errGetGlobalStatInt n = false := by simpa using herr
      simp only [globalStatsLoop, getglobalStats, attemptedLookups, herr2, ih,
        Bool.false_eq_true, if_false, List.all_cons, Bool.not_false, Bool.true_and,
        List.foldl_cons, List.map_cons, List.singleton_append]

theorem events_append (a b : List Effect) : events (a ++ b) = events a ++ events b := by
  induction a with
  | nil => rfl
  | cons x rest ih => cases x <;> simp [events, ih]

theorem events_map_ev (l : List Event) : events (l.map Effect.ev) = l := by
  induction l with
  | nil => rfl
  | cons x rest ih => simp [events, ih]

theorem registered_append (a b : List Effect) :
    registered (a ++ b) = registered a ++ registered b := by
  induction a with
  | nil => rfl
  | cons x rest ih => cases x <;> simp [registered, ih]

/-- The run of the success continuation of `GetGlobalStats` on a decodable buffer: the
output, the lookups made, and the call of `successFunc` exactly when no lookup reports an
error. -/
theorem globalStatsSuccessFunc_events (env : Env) (names : List String) (ret : Bytes)
    (d : GlobalStatsReceived_t) (hd : env.decodeGlobalStatsReceived ret = some d) :
    events (globalStatsSuccessFunc env names ret) =
      Event.printData d ::
        (attemptedLookups env names).map (fun n => Event.native (NativeCall.GetGlobalStatInt n))
        ++ (if names.all (fun n => !env.errGetGlobalStatInt n) then
              [Event.globalStatsSuccess (deliveredGlobalStats env names)]
            else []) := by
  unfold globalStatsSuccessFunc
  rw [hd]
  simp only [globalStatsLoop_eq]
  have hmap : events ((attemptedLookups env names).map
      (fun n => Effect.ev (Event.native (NativeCall.GetGlobalStatInt n)))) =
      (attemptedLookups env names).map (fun n => Event.native (NativeCall.GetGlobalStatInt n)) := by
    rw [← events_map_ev ((attemptedLookups env names).map
      (fun n => Event.native (NativeCall.GetGlobalStatInt n))), List.map_map]
    rfl
  by_cases hall : names.all (fun n => !env.errGetGlobalStatInt n) = true
  · simp only [hall, if_true, events, events_append, hmap, deliveredGlobalStats]
  · simp only [hall, Bool.false_eq_true, if_false, events, events_append, hmap,
      List.append_nil]

/-! ## Claims on `GetGlobalStats` -/

/-- C1 (as stated, refuted): for names `a, b, c` with values `5, 9, 2` the list handed to
`successFunc` is `[{b,9},{a,5},{c,2}]`; it is not `[{c,2},{a,5},{b,9}]` and it is not sorted
ascending by `Value`. -/
theorem getGlobalStats_ascending_counterexample :
    ((sampleEnv.nativeGetGlobalStatInt "a").2 = 5 ∧ (sampleEnv.nativeGetGlobalStatInt "b").2 = 9
      ∧ (sampleEnv.nativeGetGlobalStatInt "c").2 = 2) ∧
    events (globalStatsSuccessFunc sampleEnv ["a", "b", "c"] [0, 1]) =
      [Event.printData (GlobalStatsReceived_t.mk [0, 1]),
       Event.native (NativeCall.GetGlobalStatInt "a"),
       Event.native (NativeCall.GetGlobalStatInt "b"),
       Event.native (NativeCall.GetGlobalStatInt "c"),
       Event.globalStatsSuccess
        [GlobalStat.mk "b" 9, GlobalStat.mk "a" 5, GlobalStat.mk "c" 2]] ∧
    deliveredGlobalStats sampleEnv ["a", "b", "c"] ≠
      [GlobalStat.mk "c" 2, GlobalStat.mk "a" 5, GlobalStat.mk "b" 9] ∧
    ¬ (deliveredGlobalStats sampleEnv ["a", "b", "c"]).Pairwise
        (fun x y => x.Value ≤ y.Value) := by
  refine ⟨by decide, by decide, by decide, by decide⟩

/-- C1 (amended): on a decodable buffer the success continuation of `GetGlobalStats` hands
`successFunc` a list sorted descending (non-increasing) by `Value`; for names `a, b, c`
with values `5, 9, 2` that list is `[{b,9},{a,5},{c,2}]`. The run is given in full: the
lookups made and, exactly when no lookup reports an error, the call of `successFunc`. -/
theorem getGlobalStats_delivers_descending (env : Env) (names : List String) (ret : Bytes)
    (d : GlobalStatsReceived_t) (hd : env.decodeGlobalStatsReceived ret = some d) :
    events (globalStatsSuccessFunc env names ret) =
      Event.printData d ::
        (attemptedLookups env names).map (fun n => Event.native (NativeCall.GetGlobalStatInt n))
        ++ (if names.all (fun n => !env.errGetGlobalStatInt n) then
              [Event.globalStatsSuccess (deliveredGlobalStats env names)]
            else []) ∧
    ((∀ n ∈ names, env.errGetGlobalStatInt n = false) →
      events (globalStatsSuccessFunc env names ret) =
        Event.printData d :: names.map (fun n => Event.native (NativeCall.GetGlobalStatInt n))
          ++ [Event.globalStatsSuccess (deliveredGlobalStats env names)]) ∧
    (deliveredGlobalStats env names).Pairwise (fun x y => x.Value ≥ y.Value) ∧
    ((env.nativeGetGlobalStatInt "a").2 = 5 → (env.nativeGetGlobalStatInt "b").2 = 9 →
      (env.nativeGetGlobalStatInt "c").2 = 2 →
      deliveredGlobalStats env ["a", "b", "c"] =
        [GlobalStat.mk "b" 9, GlobalStat.mk "a" 5, GlobalStat.mk "c" 2]) := by
  refine ⟨globalStatsSuccessFunc_events env names ret d hd, ?_, ?_, ?_⟩
  · intro hno
    have hall : names.all (fun n => !env.errGetGlobalStatInt n) = true := by
      rw [List.all_eq_true]
      intro n hn
      simp [hno n hn]
    rw [globalStatsSuccessFunc_events env names ret d hd, attemptedLookups_of_noError env names hno,
      hall]
    rfl
  · exact deliveredFrom_sorted env names [] List.Pairwise.nil
  · intro ha hb hc
    simp only [deliveredGlobalStats, List.foldl_cons, List.foldl_nil, ha, hb, hc]
    decide

/-- Witness of `getGlobalStats_delivers_descending` on the concrete environment. -/
theorem getGlobalStats_delivers_descending_witness :
    sampleEnv.decodeGlobalStatsReceived [0, 1] = some (GlobalStatsReceived_t.mk [0, 1]) ∧
    (deliveredGlobalStats sampleEnv ["a", "b", "c"]).Pairwise (fun x y => x.Value ≥ y.Value) ∧
    deliveredGlobalStats sampleEnv ["a", "b", "c"] =
      [GlobalStat.mk "b" 9, GlobalStat.mk "a" 5, GlobalStat.mk "c" 2] ∧
    events (globalStatsSuccessFunc sampleEnv ["a", "b", "c"] [0, 1]) =
      [Event.printData (GlobalStatsReceived_t.mk [0, 1]),
       Event.native (NativeCall.GetGlobalStatInt "a"),
       Event.native (NativeCall.GetGlobalStatInt "b"),
       Event.native (NativeCall.GetGlobalStatInt "c"),
       Event.globalStatsSuccess
        [GlobalStat.mk "b" 9, GlobalStat.mk "a" 5, GlobalStat.mk "c" 2]] :=
  ⟨by decide,
    (getGlobalStats_delivers_descending sampleEnv ["a", "b", "c"] [0, 1]
      (GlobalStatsReceived_t.mk [0, 1]) (by decide)).2.2.1,
    (getGlobalStats_delivers_descending sampleEnv ["a", "b", "c"] [0, 1]
      (GlobalStatsReceived_t.mk [0, 1]) (by decide)).2.2.2 (by decide) (by decide) (by decide),
    ((getGlobalStats_delivers_descending sampleEnv ["a", "b", "c"] [0, 1]
      (GlobalStatsReceived_t.mk [0, 1]) (by decide)).2.1 (by decide)).trans (by decide)⟩

/-- C8 (as stated, refuted): the `TimeoutFunc` of the record `GetGlobalStats` registers
invokes no caller-supplied continuation at all (zero times, not once). -/
theorem getGlobalStats_timeout_counterexample :
    (registered (GetGlobalStats sampleEnv ["a", "b", "c"])).map
      (fun r => (events (r.TimeoutFunc 1000 30)).countP Event.isCallerContinuation) = [0] := by
  decide

/-- C8 (amended): `GetGlobalStats` registers exactly one record, and the `TimeoutFunc` of
that record performs no effect: no continuation of the caller is invoked, no native call
is made, nothing is registered. -/
theorem getGlobalStats_timeout_silent (env : Env) (names : List String)
    (callbackTime callbackSpend : Int) :
    (registered (GetGlobalStats env names)).map
      (fun r => r.TimeoutFunc callbackTime callbackSpend) = [[]] ∧
    (registered (GetGlobalStats env names)).map
      (fun r => (events (r.TimeoutFunc callbackTime callbackSpend)).countP
        Event.isCallerContinuation) = [0] := by
  constructor <;>
    simp [GetGlobalStats, requestGlobalStats, registered, CallbackArgs.TimeoutFunc,
      globalStatsTimeoutFunc, events]

/-! ## Lemmas on the leaderboard helpers -/

theorem wrapInt_of_fits (w : Nat) (x : Int) (h1 : 1 ≤ x) (h2 : x < 2 ^ (w - 1)) :
    wrapInt w x = x := by
  have hw : 1 ≤ w := by
    by_contra hc
    have : w = 0 := by omega
    subst this
    simp at h2
    omega
  have hpow : (2 : Int) ^ w = 2 * 2 ^ (w - 1) := by
    obtain ⟨k, rfl⟩ : ∃ k, w = k + 1 := ⟨w - 1, by omega⟩
    simp [pow_succ, mul_comm]
  unfold wrapInt
  have hpos : (0 : Int) < 2 ^ (w - 1) := by positivity
  rw [Int.emod_eq_of_lt (by omega) (by omega)]
  omega

theorem storeDetails_length (buffer offered : List Int) (h : offered.length ≤ buffer.length) :
    (storeDetails buffer offered).length = buffer.length := by
  simp [storeDetails]
  omega

/-- A buffer within the allocation limit has a length the type `int` holds. -/
theorem allocLimit_fits (env : Env) (n : Int) (h1 : 1 ≤ n)
    (halloc : 4 * n ≤ (allocLimit env : Int)) :
    n < 2 ^ (env.intBits - 1) ∧ 4 * n ≤ (maxAlloc env.intBits : Int) ∧
      4 * n ≤ (env.memoryLimit : Int) := by
  have hmin1 : (allocLimit env : Int) ≤ (maxAlloc env.intBits : Int) := by
    exact_mod_cast Nat.min_le_left _ _
  have hmin2 : (allocLimit env : Int) ≤ (env.memoryLimit : Int) := by
    exact_mod_cast Nat.min_le_right _ _
  refine ⟨?_, le_trans halloc hmin1, le_trans halloc hmin2⟩
  have hm : 4 * n ≤ (maxAlloc env.intBits : Int) := le_trans halloc hmin1
  unfold maxAlloc at hm
  by_cases h64 : env.intBits = 64
  · rw [h64] at hm ⊢
    norm_num at hm ⊢
    omega
  · by_cases h32 : env.intBits = 32
    · rw [h32] at hm ⊢
      norm_num at hm ⊢
      omega
    · rw [if_neg h64, if_neg h32] at hm
      norm_num at hm
      omega

theorem makeSlice_ok (env : Env) (n : Nat) (halloc : 4 * ((n : Int) + 1) ≤ (allocLimit env : Int)) :
    makeSlice env ((n : Int) + 1) = Except.ok (List.replicate (n + 1) 0) := by
  obtain ⟨-, h2, h3⟩ := allocLimit_fits env ((n : Int) + 1) (by omega) halloc
  unfold makeSlice
  rw [if_neg (by omega), if_neg (by omega)]
  congr 2

/-- Within the range where the buffer can be made, `getDownloadedLeaderboardEntry` returns:
one native call, the stored row, and exactly `detailsMax` details. -/
theorem getDownloadedLeaderboardEntry_ok (env : Env) (entries : Nat) (index detailsMax : Int)
    (h0 : 0 ≤ detailsMax) (halloc : 4 * (detailsMax + 1) ≤ (allocLimit env : Int))
    (hno : env.errGetDownloadedLeaderboardEntry entries index detailsMax = false) :
    getDownloadedLeaderboardEntry env entries index detailsMax =
      (Except.ok ((env.nativeGetDownloadedLeaderboardEntry entries index detailsMax).1 % 256 != 0,
          fetchedEntry env entries index detailsMax,
          fetchedDetails env entries index detailsMax),
        [Effect.ev (Event.native
          (NativeCall.GetDownloadedLeaderboardEntry entries index detailsMax))]) := by
  obtain ⟨n, rfl⟩ : ∃ n : Nat, detailsMax = (n : Int) := ⟨detailsMax.toNat, by omega⟩
  unfold getDownloadedLeaderboardEntry
  rw [wrapInt_of_fits _ _ (by omega) (allocLimit_fits env _ (by omega) halloc).1,
    makeSlice_ok env n halloc]
  simp only [List.length_replicate, Nat.add_one_ne_zero, if_false, Int.toNat_ofNat, hno,
    Bool.false_eq_true]
  have hlen : (storeDetails (List.replicate (n + 1) (0 : Int))
      ((env.nativeGetDownloadedLeaderboardEntry entries index n).2.2.take n)).length = n + 1 := by
    rw [storeDetails_length _ _ (by simp [List.length_take])]
    simp
  rw [if_neg (by rw [hlen]; omega)]
  simp only [fetchedEntry, fetchedDetails, Int.toNat_ofNat, Prod.mk.injEq, and_true, true_and,
    Except.ok.injEq]
  have hoff : ((env.nativeGetDownloadedLeaderboardEntry entries index n).2.2.take n).length
      ≤ n := by
    rw [List.length_take]
    omega
  generalize ((env.nativeGetDownloadedLeaderboardEntry entries index n).2.2.take n) = off at *
  simp only [storeDetails, List.drop_replicate]
  rw [List.take_append_eq_append_take, List.take_of_length_le hoff, List.take_replicate]
  congr 2
  omega

theorem getDownloadedLeaderboardEntry_details_length (env : Env) (entries : Nat)
    (index detailsMax : Int) (s : Bool) (e : LeaderboardEntry_t) (d : List Int)
    (effs : List Effect)
    (h : getDownloadedLeaderboardEntry env entries index detailsMax = (Except.ok (s, e, d), effs)) :
    (d.length : Int) = detailsMax := by
  unfold getDownloadedLeaderboardEntry at h
  split at h
  · simp at h
  · split at h
    · simp at h
    · dsimp only at h
      split at h
      · simp at h
      · split at h
        · simp at h
        · rename_i hcond
          simp only [Prod.mk.injEq, Except.ok.injEq] at h
          obtain ⟨⟨-, -, rfl⟩, -⟩ := h
          rw [List.length_take]
          omega

theorem getDownloadedLeaderboardEntry_effects (env : Env) (entries : Nat)
    (index detailsMax : Int) :
    (getDownloadedLeaderboardEntry env entries index detailsMax).2 = [] ∨
    (getDownloadedLeaderboardEntry env entries index detailsMax).2 =
      [Effect.ev (Event.native
        (NativeCall.GetDownloadedLeaderboardEntry entries index detailsMax))] := by
  unfold getDownloadedLeaderboardEntry
  split
  · exact Or.inl rfl
  · split
    · exact Or.inl rfl
    · dsimp only
      split
      · exact Or.inr rfl
      · split <;> exact Or.inr rfl

/-- The row emitted for index `i` by the download continuation. -/
theorem rowLoop_ok (env : Env) (entries : Nat) (entryCount detailsMax : Int)
    (h0 : 0 ≤ detailsMax) (halloc : 4 * (detailsMax + 1) ≤ (allocLimit env : Int))
    (idxs : List Nat)
    (hno : ∀ i ∈ idxs,
      env.errGetDownloadedLeaderboardEntry entries (i : Int) detailsMax = false) :
    rowLoop env entries entryCount detailsMax idxs =
      (idxs.flatMap (fun (i : Nat) =>
        [Event.native (NativeCall.GetDownloadedLeaderboardEntry entries (i : Int) detailsMax),
         Event.row (fetchedEntry env entries (i : Int) detailsMax) (i : Int) entryCount
           (fetchedDetails env entries (i : Int) detailsMax)])).map Effect.ev := by
  induction idxs with
  | nil => rfl
  | cons i rest ih =>
    simp only [rowLoop, getDownloadedLeaderboardEntry_ok env entries (i : Int) detailsMax h0
      halloc (hno i (List.mem_cons_self _ _)),
      ih (fun j hj => hno j (List.mem_cons_of_mem _ hj))]
    simp

theorem rowLoop_rows_details (env : Env) (entries : Nat) (entryCount detailsMax : Int)
    (idxs : List Nat) :
    ∀ e ∈ events (rowLoop env entries entryCount detailsMax idxs), e.isRow = true →
      (e.rowDetails.length : Int) = detailsMax := by
  induction idxs with
  | nil => intro e he; simp [rowLoop, events] at he
  | cons i rest ih =>
    intro e he hrow
    unfold rowLoop at he
    have heff := getDownloadedLeaderboardEntry_effects env entries (i : Int) detailsMax
    rcases hres : getDownloadedLeaderboardEntry env entries (i : Int) detailsMax with
      ⟨res, effs⟩
    rw [hres] at he heff
    simp only at heff
    cases res with
    | error p =>
      simp only [events_append] at he
      rcases heff with rfl | rfl
      · simp [events] at he
      · simp [events] at he
        subst he
        simp [Event.isRow] at hrow
    | ok val =>
      obtain ⟨s, entry, details⟩ := val
      have hlen := getDownloadedLeaderboardEntry_details_length env entries (i : Int)
        detailsMax s entry details effs hres
      simp only [events_append] at he
      rcases List.mem_append.mp he with he | he
      · rcases heff with rfl | rfl
        · simp [events] at he
        · simp [events] at he
          subst he
          simp [Event.isRow] at hrow
      · simp only [events, List.mem_cons] at he
        rcases he with rfl | he
        · simpa [Event.rowDetails] using hlen
        · exact ih e he hrow

/-- The only record `ReadLeadboard` registers is its find-step record. -/
theorem readLeadboard_registered (env : Env) (leaderboardName : String)
    (dataRequest rangeStart rangeEnd detailsMax : Int) :
    registered (ReadLeadboard env leaderboardName dataRequest rangeStart rangeEnd detailsMax) =
      [CallbackArgs.mk (env.nativeFindLeaderboard leaderboardName)
        iCallbackExpected.LeaderboardFindResult_t env.sizeLeaderboardFindResult
        (readFindSuccessFunc env dataRequest rangeStart rangeEnd detailsMax)
        (fun callbackTime callbackSpend => callerTimeoutFunc callbackTime callbackSpend)] := by
  simp [ReadLeadboard, findLeaderboard, registered]

/-- The records the find step of `ReadLeadboard` registers: the download record, when the
find buffer decodes; none otherwise. -/
theorem readLeadboard_secondStep (env : Env) (leaderboardName : String)
    (dataRequest rangeStart rangeEnd detailsMax : Int) (findRet : Bytes) :
    secondStepRecords
        (ReadLeadboard env leaderboardName dataRequest rangeStart rangeEnd detailsMax) findRet =
      match env.decodeLeaderboardFindResult findRet with
      | none => []
      | some data => [downloadRecord env detailsMax
          (env.nativeDownloadLeaderboardEntries data.SteamLeaderboard dataRequest rangeStart
            rangeEnd)] := by
  unfold secondStepRecords
  rw [readLeadboard_registered]
  simp only [List.flatMap_cons, List.flatMap_nil, List.append_nil, CallbackArgs.SuccessFunc,
    readFindSuccessFunc]
  cases env.decodeLeaderboardFindResult findRet with
  | none => simp [registered]
  | some data => simp [registered, downloadLeaderboardEntries]

theorem readLeadboard_secondStep_mem (env : Env) (leaderboardName : String)
    (dataRequest rangeStart rangeEnd detailsMax : Int) (findRet : Bytes) (r : CallbackArgs)
    (hr : r ∈ secondStepRecords
      (ReadLeadboard env leaderboardName dataRequest rangeStart rangeEnd detailsMax) findRet) :
    ∃ downCall, r = downloadRecord env detailsMax downCall := by
  rw [readLeadboard_secondStep] at hr
  cases hdec : env.decodeLeaderboardFindResult findRet with
  | none => rw [hdec] at hr; simp at hr
  | some data =>
    rw [hdec] at hr
    simp only [List.mem_singleton] at hr
    exact ⟨_, hr⟩

/-- The only record `UploadLeaderboardScore` registers is its find-step record. -/
theorem uploadLeaderboardScore_registered (env : Env) (leaderboardName : String)
    (uploadScoreMethod score : Int) (scoreDetails : List Int) :
    registered (UploadLeaderboardScore env leaderboardName uploadScoreMethod score
        scoreDetails) =
      [CallbackArgs.mk (env.nativeFindLeaderboard leaderboardName)
        iCallbackExpected.LeaderboardFindResult_t env.sizeLeaderboardFindResult
        (uploadFindSuccessFunc env uploadScoreMethod score scoreDetails)
        (fun callbackTime callbackSpend => callerTimeoutFunc callbackTime callbackSpend)] := by
  simp [UploadLeaderboardScore, findLeaderboard, registered]

/-- The run of the find-step continuation of `UploadLeaderboardScore` on a decodable
buffer: the native upload call, then the registration of the upload record. -/
theorem uploadFindSuccessFunc_eq (env : Env) (uploadScoreMethod score : Int)
    (scoreDetails : List Int) (findRet : Bytes) (data : LeaderboardFindResult_t)
    (hd : env.decodeLeaderboardFindResult findRet = some data) :
    uploadFindSuccessFunc env uploadScoreMethod score scoreDetails findRet =
      [Effect.ev (Event.native (NativeCall.UploadLeaderboardScore data.SteamLeaderboard
          uploadScoreMethod score (scoreDetails ++ [0]) (scoreDetails.length : Int))),
       Effect.register (uploadRecord env (env.nativeUploadLeaderboardScore data.SteamLeaderboard
          uploadScoreMethod score (scoreDetails ++ [0]) (scoreDetails.length : Int)))] := by
  unfold uploadFindSuccessFunc
  rw [hd]
  simp [uploadLeaderboardScore]

theorem uploadLeaderboardScore_secondStep_mem (env : Env) (leaderboardName : String)
    (uploadScoreMethod score : Int) (scoreDetails : List Int) (findRet : Bytes)
    (r : CallbackArgs)
    (hr : r ∈ secondStepRecords
      (UploadLeaderboardScore env leaderboardName uploadScoreMethod score scoreDetails)
      findRet) :
    ∃ uploadCall, r = uploadRecord env uploadCall := by
  unfold secondStepRecords at hr
  rw [uploadLeaderboardScore_registered] at hr
  simp only [List.flatMap_cons, List.flatMap_nil, List.append_nil,
    CallbackArgs.SuccessFunc] at hr
  cases hdec : env.decodeLeaderboardFindResult findRet with
  | none => simp [uploadFindSuccessFunc, hdec, registered] at hr
  | some data =>
    rw [uploadFindSuccessFunc_eq env _ _ _ _ data hdec] at hr
    simp only [registered, List.mem_singleton] at hr
    exact ⟨_, hr⟩

/-! ## Claims on `ReadLeadboard` and `UploadLeaderboardScore` -/

/-- C2 (as stated, refuted): with a decoded entry count `K > 0` the download continuation
registered by `ReadLeadboard` does not always deliver `K` rows. With `detailsMax = -1` it
panics on `&details[0]` before any native call; with `detailsMax = 2^47` the buffer
exceeds `maxAlloc` and `make` panics, with `detailsMax = 2^63 - 1` the length
`detailsMax+1` wraps negative and `make` panics; on a machine with 64 bytes left,
`detailsMax = 16` ends the program in `make`; and when the fetch of row `1` reports an
error, row `0` is delivered and the run panics with one row out of three. -/
theorem readLeadboard_rows_counterexample :
    sampleEnv.decodeLeaderboardScoresDownloaded [3, 4, 1] =
      some (LeaderboardScoresDownloaded_t.mk 3 4 1) ∧
    (secondStepRecords (ReadLeadboard sampleEnv "board" 0 0 10 (-1)) [3, 1]).map
      (fun r => (events (r.SuccessFunc [3, 4, 1]), panics (r.SuccessFunc [3, 4, 1]))) =
      [([], [Panic.indexOutOfRange])] ∧
    (secondStepRecords (ReadLeadboard sampleEnv "board" 0 0 10 (2 ^ 47)) [3, 1]).map
      (fun r => (events (r.SuccessFunc [3, 4, 1]), panics (r.SuccessFunc [3, 4, 1]))) =
      [([], [Panic.makesliceLenOutOfRange])] ∧
    (secondStepRecords (ReadLeadboard sampleEnv "board" 0 0 10 (2 ^ 63 - 1)) [3, 1]).map
      (fun r => (events (r.SuccessFunc [3, 4, 1]), panics (r.SuccessFunc [3, 4, 1]))) =
      [([], [Panic.makesliceLenOutOfRange])] ∧
    (secondStepRecords (ReadLeadboard faultyEnv "board" 0 0 10 16) [3, 1]).map
      (fun r => (events (r.SuccessFunc [3, 4, 1]), panics (r.SuccessFunc [3, 4, 1]))) =
      [([], [Panic.outOfMemory])] ∧
    (secondStepRecords (ReadLeadboard faultyEnv "board" 0 0 10 2) [3, 1]).map
      (fun r => (events (r.SuccessFunc [3, 4, 3]), panics (r.SuccessFunc [3, 4, 3]))) =
      [([Event.native (NativeCall.GetDownloadedLeaderboardEntry 4 0 2),
         Event.row (LeaderboardEntry_t.mk 100 1 50) 0 3 [7, 8],
         Event.native (NativeCall.GetDownloadedLeaderboardEntry 4 1 2)],
        [Panic.nativeCallError])] := by
  refine ⟨by decide, by decide, by decide, by decide, by decide, by decide⟩

/-- C2 (amended): for every entry count `K > 0` and every `detailsMax >= 0` whose buffer of
`detailsMax+1` values `make` can allocate, when none of the `K` fetches reports a
native-call error, the download continuation registered by `ReadLeadboard` fetches row `i`
and invokes the row continuation with it, for `i = 0 .. K-1` in ascending order: exactly
`K` invocations, the `i`-th with the fetched entry and details, `entryIndex = i`,
`entryCount = K`; it never invokes `timeoutFunc` and does not panic. -/
theorem readLeadboard_rows (env : Env) (leaderboardName : String)
    (dataRequest rangeStart rangeEnd detailsMax : Int) (findRet ret : Bytes)
    (r : CallbackArgs) (l : LeaderboardScoresDownloaded_t)
    (hr : r ∈ secondStepRecords
      (ReadLeadboard env leaderboardName dataRequest rangeStart rangeEnd detailsMax) findRet)
    (hdec : env.decodeLeaderboardScoresDownloaded ret = some l)
    (hK : 0 < l.EntryCount)
    (h0 : 0 ≤ detailsMax) (halloc : 4 * (detailsMax + 1) ≤ (allocLimit env : Int))
    (hno : ∀ i : Nat, (i : Int) < l.EntryCount →
      env.errGetDownloadedLeaderboardEntry l.SteamLeaderboardEntries (i : Int) detailsMax
        = false) :
    r.SuccessFunc ret =
      ((List.range l.EntryCount.toNat).flatMap (fun (i : Nat) =>
        [Event.native (NativeCall.GetDownloadedLeaderboardEntry l.SteamLeaderboardEntries
            (i : Int) detailsMax),
         Event.row (fetchedEntry env l.SteamLeaderboardEntries (i : Int) detailsMax) (i : Int)
           l.EntryCount
           (fetchedDetails env l.SteamLeaderboardEntries (i : Int) detailsMax)])).map
        Effect.ev ∧
    (events (r.SuccessFunc ret)).filter Event.isRow =
      (List.range l.EntryCount.toNat).map (fun (i : Nat) =>
        Event.row (fetchedEntry env l.SteamLeaderboardEntries (i : Int) detailsMax) (i : Int)
          l.EntryCount (fetchedDetails env l.SteamLeaderboardEntries (i : Int) detailsMax)) ∧
    ((events (r.SuccessFunc ret)).countP Event.isRow : Int) = l.EntryCount ∧
    (events (r.SuccessFunc ret)).countP Event.isTimeout = 0 ∧
    panics (r.SuccessFunc ret) = [] := by
  obtain ⟨downCall, rfl⟩ := readLeadboard_secondStep_mem env leaderboardName dataRequest
    rangeStart rangeEnd detailsMax findRet r hr
  have hrun : (downloadRecord env detailsMax downCall).SuccessFunc ret =
      ((List.range l.EntryCount.toNat).flatMap (fun (i : Nat) =>
        [Event.native (NativeCall.GetDownloadedLeaderboardEntry l.SteamLeaderboardEntries
            (i : Int) detailsMax),
         Event.row (fetchedEntry env l.SteamLeaderboardEntries (i : Int) detailsMax) (i : Int)
           l.EntryCount
           (fetchedDetails env l.SteamLeaderboardEntries (i : Int) detailsMax)])).map
        Effect.ev := by
    simp only [downloadRecord, CallbackArgs.SuccessFunc, downloadSuccessFunc, hdec]
    rw [if_neg (by omega)]
    refine rowLoop_ok env _ _ _ h0 halloc _ ?_
    intro i hi
    exact hno i (by have := List.mem_range.mp hi; omega)
  have hfilter : (events ((downloadRecord env detailsMax downCall).SuccessFunc ret)).filter
      Event.isRow =
      (List.range l.EntryCount.toNat).map (fun (i : Nat) =>
        Event.row (fetchedEntry env l.SteamLeaderboardEntries (i : Int) detailsMax) (i : Int)
          l.EntryCount (fetchedDetails env l.SteamLeaderboardEntries (i : Int) detailsMax)) := by
    rw [hrun, events_map_ev]
    generalize List.range l.EntryCount.toNat = idxs
    induction idxs with
    | nil => rfl
    | cons i rest ih => simp [List.flatMap_cons, List.filter_cons, Event.isRow, ih]
  refine ⟨hrun, hfilter, ?_, ?_, ?_⟩
  · rw [List.countP_eq_length_filter, hfilter, List.length_map, List.length_range]
    omega
  · rw [hrun, events_map_ev]
    generalize List.range l.EntryCount.toNat = idxs
    induction idxs with
    | nil => rfl
    | cons i rest ih => simpa [List.flatMap_cons, List.countP_cons, Event.isTimeout] using ih
  · rw [hrun]
    generalize (List.flatMap _ _ : List Event) = evs
    induction evs with
    | nil => rfl
    | cons e rest ih => simpa [panics] using ih

/-- Witness of `readLeadboard_rows`: three rows, at most two details each. -/
theorem readLeadboard_rows_witness :
    (downloadRecord sampleEnv 2 4 ∈
      secondStepRecords (ReadLeadboard sampleEnv "board" 0 0 10 2) [3, 1]) ∧
    (events ((downloadRecord sampleEnv 2 4).SuccessFunc [3, 4, 3])).filter Event.isRow =
      [Event.row (LeaderboardEntry_t.mk 100 1 50) 0 3 [7, 8],
       Event.row (LeaderboardEntry_t.mk 101 2 49) 1 3 [7, 8],
       Event.row (LeaderboardEntry_t.mk 102 3 48) 2 3 [7, 8]] :=
  have hmem : downloadRecord sampleEnv 2 4 ∈
      secondStepRecords (ReadLeadboard sampleEnv "board" 0 0 10 2) [3, 1] := by
    rw [readLeadboard_secondStep]
    exact List.mem_singleton.mpr rfl
  ⟨hmem,
    (readLeadboard_rows sampleEnv "board" 0 0 10 2 [3, 1] [3, 4, 3] (downloadRecord sampleEnv 2 4)
      (LeaderboardScoresDownloaded_t.mk 3 4 3) hmem (by decide) (by decide) (by decide)
      (by decide) (fun _ _ => rfl)).2.1.trans (by decide)⟩

/-- C3: when the download continuation registered by `ReadLeadboard` decodes an entry count
of `0`, its whole run is one invocation of the row continuation with the zero-valued entry,
`entryIndex = -1`, `entryCount = 0` and no details: no native call, no `timeoutFunc`, no
panic. -/
theorem readLeadboard_empty (env : Env) (leaderboardName : String)
    (dataRequest rangeStart rangeEnd detailsMax : Int) (findRet ret : Bytes)
    (r : CallbackArgs) (l : LeaderboardScoresDownloaded_t)
    (hr : r ∈ secondStepRecords
      (ReadLeadboard env leaderboardName dataRequest rangeStart rangeEnd detailsMax) findRet)
    (hdec : env.decodeLeaderboardScoresDownloaded ret = some l)
    (hK : l.EntryCount = 0) :
    r.SuccessFunc ret = [Effect.ev (Event.row LeaderboardEntry_t.zero (-1) 0 [])] ∧
    (events (r.SuccessFunc ret)).countP Event.isRow = 1 ∧
    (events (r.SuccessFunc ret)).countP Event.isNative = 0 ∧
    (events (r.SuccessFunc ret)).countP Event.isTimeout = 0 := by
  obtain ⟨downCall, rfl⟩ := readLeadboard_secondStep_mem env leaderboardName dataRequest
    rangeStart rangeEnd detailsMax findRet r hr
  have hrun : (downloadRecord env detailsMax downCall).SuccessFunc ret =
      [Effect.ev (Event.row LeaderboardEntry_t.zero (-1) 0 [])] := by
    simp [downloadRecord, CallbackArgs.SuccessFunc, downloadSuccessFunc, hdec, hK]
  rw [hrun]
  exact ⟨rfl, rfl, rfl, rfl⟩

/-- Witness of `readLeadboard_empty`: an empty leaderboard, whatever `detailsMax` is. -/
theorem readLeadboard_empty_witness :
    (downloadRecord sampleEnv (-1) 4).SuccessFunc [3, 4, 0] =
      [Effect.ev (Event.row LeaderboardEntry_t.zero (-1) 0 [])] :=
  (readLeadboard_empty sampleEnv "board" 0 0 10 (-1) [3, 1] [3, 4, 0]
    (downloadRecord sampleEnv (-1) 4) (LeaderboardScoresDownloaded_t.mk 3 4 0)
    (by rw [readLeadboard_secondStep]; exact List.mem_singleton.mpr rfl)
    (by decide) (by decide)).1

/-- C4: when the find-step record of `UploadLeaderboardScore` completes with a decodable
buffer and the upload-step record it registers completes with a decodable buffer, the three
runs together invoke `retFunc` exactly once, with the record decoded from the upload-step
buffer, and never invoke `timeoutFunc`. -/
theorem uploadLeaderboardScore_chain (env : Env) (leaderboardName : String)
    (uploadScoreMethod score : Int) (scoreDetails : List Int) (findRet uploadRet : Bytes)
    (data : LeaderboardFindResult_t) (u : LeaderboardScoreUploaded_t)
    (hfind : env.decodeLeaderboardFindResult findRet = some data)
    (hup : env.decodeLeaderboardScoreUploaded uploadRet = some u) :
    ∃ r1 r2 : CallbackArgs,
      registered (UploadLeaderboardScore env leaderboardName uploadScoreMethod score
        scoreDetails) = [r1] ∧
      registered (r1.SuccessFunc findRet) = [r2] ∧
      r2.SuccessFunc uploadRet = [Effect.ev (Event.uploadRet u)] ∧
      (events (UploadLeaderboardScore env leaderboardName uploadScoreMethod score scoreDetails
        ++ r1.SuccessFunc findRet ++ r2.SuccessFunc uploadRet)).filter Event.isUploadRet =
        [Event.uploadRet u] ∧
      (events (UploadLeaderboardScore env leaderboardName uploadScoreMethod score scoreDetails
        ++ r1.SuccessFunc findRet ++ r2.SuccessFunc uploadRet)).countP Event.isUploadRet = 1 ∧
      (events (UploadLeaderboardScore env leaderboardName uploadScoreMethod score scoreDetails
        ++ r1.SuccessFunc findRet ++ r2.SuccessFunc uploadRet)).countP Event.isTimeout = 0 ∧
      panics (UploadLeaderboardScore env leaderboardName uploadScoreMethod score scoreDetails
        ++ r1.SuccessFunc findRet ++ r2.SuccessFunc uploadRet) = [] := by
  refine ⟨_, uploadRecord env (env.nativeUploadLeaderboardScore data.SteamLeaderboard
      uploadScoreMethod score (scoreDetails ++ [0]) (scoreDetails.length : Int)),
    uploadLeaderboardScore_registered env leaderboardName uploadScoreMethod score
      scoreDetails, ?_, ?_, ?_, ?_, ?_, ?_⟩
  · simp only [CallbackArgs.SuccessFunc]
    rw [uploadFindSuccessFunc_eq env _ _ _ _ data hfind]
    rfl
  · simp [uploadRecord, CallbackArgs.SuccessFunc, uploadSuccessFunc, hup]
  all_goals
    simp only [CallbackArgs.SuccessFunc, uploadRecord, uploadSuccessFunc, hup,
      uploadFindSuccessFunc_eq env _ _ _ _ data hfind, UploadLeaderboardScore, findLeaderboard]
    rfl

/-- Witness of `uploadLeaderboardScore_chain` on the concrete environment. -/
theorem uploadLeaderboardScore_chain_witness :
    sampleEnv.decodeLeaderboardFindResult [3, 1] = some (LeaderboardFindResult_t.mk 3 1) ∧
    sampleEnv.decodeLeaderboardScoreUploaded [1, 42] =
      some (LeaderboardScoreUploaded_t.mk [1, 42]) ∧
    ∃ r1 r2 : CallbackArgs,
      registered (UploadLeaderboardScore sampleEnv "board" 1 42 [7]) = [r1] ∧
      registered (r1.SuccessFunc [3, 1]) = [r2] ∧
      r2.SuccessFunc [1, 42] =
        [Effect.ev (Event.uploadRet (LeaderboardScoreUploaded_t.mk [1, 42]))] :=
  ⟨by decide, by decide,
    match uploadLeaderboardScore_chain sampleEnv "board" 1 42 [7] [3, 1] [1, 42]
      (LeaderboardFindResult_t.mk 3 1) (LeaderboardScoreUploaded_t.mk [1, 42])
      (by decide) (by decide) with
    | ⟨r1, r2, h1, h2, h3, _⟩ => ⟨r1, r2, h1, h2, h3⟩⟩

/-- C5: `UploadLeaderboardScore` issues the find request and registers one record; when
that record is resolved through its `TimeoutFunc`, the caller's `timeoutFunc` is invoked
exactly once and nothing else happens: the native upload call is not issued, no second
record is registered, `retFunc` is not invoked. -/
theorem uploadLeaderboardScore_find_timeout (env : Env) (leaderboardName : String)
    (uploadScoreMethod score : Int) (scoreDetails : List Int)
    (callbackTime callbackSpend : Int) :
    ∃ r1 : CallbackArgs,
      UploadLeaderboardScore env leaderboardName uploadScoreMethod score scoreDetails =
        [Effect.ev (Event.native (NativeCall.FindLeaderboard leaderboardName)),
         Effect.register r1] ∧
      r1.TimeoutFunc callbackTime callbackSpend =
        [Effect.ev (Event.timeout callbackTime callbackSpend)] ∧
      (events (UploadLeaderboardScore env leaderboardName uploadScoreMethod score scoreDetails
        ++ r1.TimeoutFunc callbackTime callbackSpend)).countP Event.isTimeout = 1 ∧
      (events (UploadLeaderboardScore env leaderboardName uploadScoreMethod score scoreDetails
        ++ r1.TimeoutFunc callbackTime callbackSpend)).countP Event.isNativeUpload = 0 ∧
      (events (UploadLeaderboardScore env leaderboardName uploadScoreMethod score scoreDetails
        ++ r1.TimeoutFunc callbackTime callbackSpend)).countP Event.isUploadRet = 0 ∧
      registered (UploadLeaderboardScore env leaderboardName uploadScoreMethod score
        scoreDetails ++ r1.TimeoutFunc callbackTime callbackSpend) = [r1] := by
  refine ⟨_, rfl, rfl, rfl, rfl, rfl, rfl⟩

/-- C6: in `ReadLeadboard` and in `UploadLeaderboardScore`, the `TimeoutFunc` of the
find-step record and of every second-step record has one effect only: one invocation of
the caller's `timeoutFunc` with the time and the duration it was given. -/
theorem timeoutFunc_propagates (env : Env) (leaderboardName : String)
    (dataRequest rangeStart rangeEnd detailsMax uploadScoreMethod score : Int)
    (scoreDetails : List Int) (findRet : Bytes) (callbackTime callbackSpend : Int) :
    (∀ r ∈ registered (ReadLeadboard env leaderboardName dataRequest rangeStart rangeEnd
        detailsMax) ++
        secondStepRecords (ReadLeadboard env leaderboardName dataRequest rangeStart rangeEnd
          detailsMax) findRet,
      r.TimeoutFunc callbackTime callbackSpend =
        [Effect.ev (Event.timeout callbackTime callbackSpend)]) ∧
    (∀ r ∈ registered (UploadLeaderboardScore env leaderboardName uploadScoreMethod score
        scoreDetails) ++
        secondStepRecords (UploadLeaderboardScore env leaderboardName uploadScoreMethod score
          scoreDetails) findRet,
      r.TimeoutFunc callbackTime callbackSpend =
        [Effect.ev (Event.timeout callbackTime callbackSpend)]) := by
  constructor
  · intro r hr
    rcases List.mem_append.mp hr with h | h
    · rw [readLeadboard_registered, List.mem_singleton] at h
      subst h
      rfl
    · obtain ⟨downCall, rfl⟩ := readLeadboard_secondStep_mem _ _ _ _ _ _ _ _ h
      rfl
  · intro r hr
    rcases List.mem_append.mp hr with h | h
    · rw [uploadLeaderboardScore_registered, List.mem_singleton] at h
      subst h
      rfl
    · obtain ⟨uploadCall, rfl⟩ := uploadLeaderboardScore_secondStep_mem _ _ _ _ _ _ _ h
      rfl

/-- Witness of `timeoutFunc_propagates`: both operations register a find-step record and,
on a decodable find buffer, a second-step record; all four propagate the timeout. -/
theorem timeoutFunc_propagates_witness :
    ((registered (ReadLeadboard sampleEnv "board" 0 0 10 2) ++
        secondStepRecords (ReadLeadboard sampleEnv "board" 0 0 10 2) [3, 1]).map
      (fun r => events (r.TimeoutFunc 1000 30)) =
      [[Event.timeout 1000 30], [Event.timeout 1000 30]]) ∧
    ((registered (UploadLeaderboardScore sampleEnv "board" 1 42 [7]) ++
        secondStepRecords (UploadLeaderboardScore sampleEnv "board" 1 42 [7]) [3, 1]).map
      (fun r => events (r.TimeoutFunc 1000 30)) =
      [[Event.timeout 1000 30], [Event.timeout 1000 30]]) ∧
    (∀ r ∈ registered (ReadLeadboard sampleEnv "board" 0 0 10 2) ++
        secondStepRecords (ReadLeadboard sampleEnv "board" 0 0 10 2) [3, 1],
      r.TimeoutFunc 1000 30 = [Effect.ev (Event.timeout 1000 30)]) :=
  ⟨by decide, by decide,
    (timeoutFunc_propagates sampleEnv "board" 0 0 10 2 1 42 [7] [3, 1] 1000 30).1⟩

/-- C9: for `detailsMax >= 0`, every details list `getDownloadedLeaderboardEntry` returns has
length at most `detailsMax` (exactly `detailsMax`); the function does return such a list
when `make` can allocate the buffer of `detailsMax+1` values and the native call reports
no error; and every row the download continuation of `ReadLeadboard` delivers carries at
most `detailsMax` details. -/
theorem details_bounded (env : Env) (entries : Nat) (index detailsMax : Int)
    (h0 : 0 ≤ detailsMax) :
    (∀ s e d effs,
      getDownloadedLeaderboardEntry env entries index detailsMax = (Except.ok (s, e, d), effs) →
        (d.length : Int) ≤ detailsMax) ∧
    (4 * (detailsMax + 1) ≤ (allocLimit env : Int) →
      env.errGetDownloadedLeaderboardEntry entries index detailsMax = false →
      ∃ s e d effs,
        getDownloadedLeaderboardEntry env entries index detailsMax = (Except.ok (s, e, d), effs)
          ∧ (d.length : Int) = detailsMax) ∧
    (∀ leaderboardName dataRequest rangeStart rangeEnd findRet ret,
      ∀ r ∈ secondStepRecords
          (ReadLeadboard env leaderboardName dataRequest rangeStart rangeEnd detailsMax) findRet,
        ∀ e ∈ events (r.SuccessFunc ret), e.isRow = true →
          (e.rowDetails.length : Int) ≤ detailsMax) := by
  refine ⟨?_, ?_, ?_⟩
  · intro s e d effs h
    exact le_of_eq (getDownloadedLeaderboardEntry_details_length env entries index detailsMax
      s e d effs h)
  · intro halloc hno
    have h := getDownloadedLeaderboardEntry_ok env entries index detailsMax h0 halloc hno
    exact ⟨_, _, _, _, h,
      getDownloadedLeaderboardEntry_details_length env entries index detailsMax _ _ _ _ h⟩
  · intro leaderboardName dataRequest rangeStart rangeEnd findRet ret r hr e he hrow
    obtain ⟨downCall, rfl⟩ := readLeadboard_secondStep_mem _ _ _ _ _ _ _ _ hr
    simp only [downloadRecord, CallbackArgs.SuccessFunc, downloadSuccessFunc] at he
    cases hdec : env.decodeLeaderboardScoresDownloaded ret with
    | none => simp [hdec, events] at he
    | some l =>
      rw [hdec] at he
      simp only at he
      split at he
      · simp only [events, List.mem_singleton] at he
        subst he
        simpa [Event.rowDetails] using h0
      · exact le_of_eq (rowLoop_rows_details env _ _ _ _ e he hrow)

/-- Witness of `details_bounded`: three values on offer, `detailsMax = 2`, two delivered;
the rows delivered before a failing fetch obey the bound as well. -/
theorem details_bounded_witness :
    (0 : Int) ≤ 2 ∧
    (getDownloadedLeaderboardEntry sampleEnv 4 0 2).1 =
      Except.ok (true, LeaderboardEntry_t.mk 100 1 50, [7, 8]) ∧
    (∀ s e d effs,
      getDownloadedLeaderboardEntry sampleEnv 4 0 2 = (Except.ok (s, e, d), effs) →
        (d.length : Int) ≤ 2) ∧
    (∃ s e d effs,
      getDownloadedLeaderboardEntry sampleEnv 4 0 2 = (Except.ok (s, e, d), effs)
        ∧ (d.length : Int) = 2) :=
  ⟨by decide, by rfl, (details_bounded sampleEnv 4 0 2 (by decide)).1,
    (details_bounded sampleEnv 4 0 2 (by decide)).2.1 (by decide) rfl⟩

/-! ## Lemmas on the dispatcher -/

theorem registerAll_eq (pending : List PendingCall) (rs : List CallbackArgs) (now : Int) :
    registerAll pending rs now = pending ++ rs.map (fun r => PendingCall.mk r now) := by
  induction rs generalizing pending with
  | nil => simp [registerAll]
  | cons r rest ih =>
    have := ih (registerPendingCall pending r now)
    simp only [registerAll, List.foldl_cons] at this ⊢
    rw [this]
    simp [registerPendingCall]

theorem foldl_visit_panicked (poll : Nat → iCallbackExpected → Int → PollOutcome) (now : Int)
    (todo : List PendingCall) (st : PumpState) (h : st.panicked = true) :
    todo.foldl (visit poll now) st = st := by
  induction todo with
  | nil => rfl
  | cons p rest ih =>
    have hv : visit poll now st p = st := by simp [visit, h]
    rw [List.foldl_cons, hv, ih]

theorem resolve_not_panicked (now : Int) (st : PumpState) (p : PendingCall) (fired : PumpAction)
    (effs : List Effect) (h : (resolve now st p fired effs).panicked = false) :
    resolve now st p fired effs =
      PumpState.mk (removePending (registerAll st.pending (registered effs) now) p.handle)
        (st.log ++ fired :: (events effs).map PumpAction.event) false := by
  unfold resolve at h ⊢
  split
  · rfl
  · rename_i hne
    rw [if_neg hne] at h
    simp at h

theorem visit_not_panicked (poll : Nat → iCallbackExpected → Int → PollOutcome) (now : Int)
    (st : PumpState) (p : PendingCall) (h : (visit poll now st p).panicked = false) :
    st.panicked = false ∧
    (visit poll now st p).log = st.log ++ visitActions poll now p := by
  have hst : st.panicked = false := by
    cases hp : st.panicked with
    | false => rfl
    | true =>
      have : visit poll now st p = st := by simp [visit, hp]
      rw [this, hp] at h
      exact h
  refine ⟨hst, ?_⟩
  unfold visit at h ⊢
  unfold visitActions
  simp only [hst, Bool.false_eq_true, if_false] at h ⊢
  cases hpoll : poll p.record.CallbackAPI p.record.CallbackExpected p.record.CallbaseSize with
  | notComplete => simp
  | aborted =>
    rw [hpoll] at h
    simp only at h ⊢
    rw [resolve_not_panicked _ _ _ _ _ h]
    simp
  | completed buffer =>
    rw [hpoll] at h
    simp only at h ⊢
    rw [resolve_not_panicked _ _ _ _ _ h]
    simp

theorem foldl_visit_not_panicked (poll : Nat → iCallbackExpected → Int → PollOutcome)
    (now : Int) (todo : List PendingCall) (st : PumpState)
    (h : (todo.foldl (visit poll now) st).panicked = false) :
    st.panicked = false ∧
    (todo.foldl (visit poll now) st).log = st.log ++ todo.flatMap (visitActions poll now) := by
  induction todo generalizing st with
  | nil => exact ⟨h, by simp⟩
  | cons p rest ih =>
    rw [List.foldl_cons] at h ⊢
    obtain ⟨h1, h2⟩ := ih _ h
    obtain ⟨h3, h4⟩ := visit_not_panicked poll now st p h1
    exact ⟨h3, by rw [h2, h4]; simp⟩

theorem pump_log (poll : Nat → iCallbackExpected → Int → PollOutcome) (now : Int)
    (pending : List PendingCall) (h : (pump poll now pending).panicked = false) :
    (pump poll now pending).log = pending.flatMap (visitActions poll now) := by
  have := (foldl_visit_not_panicked poll now pending _ h).2
  simpa [pump] using this

theorem pump_eq_foldl_drop (poll : Nat → iCallbackExpected → Int → PollOutcome) (now : Int)
    (pending : List PendingCall) (k : Nat) :
    pump poll now pending =
      (pending.drop k).foldl (visit poll now) (pumpUpTo poll now pending k) := by
  unfold pump pumpUpTo
  rw [← List.foldl_append, List.take_append_drop]

theorem pumpUpTo_not_panicked (poll : Nat → iCallbackExpected → Int → PollOutcome)
    (now : Int) (pending : List PendingCall) (k : Nat)
    (h : (pump poll now pending).panicked = false) :
    (pumpUpTo poll now pending k).panicked = false := by
  rw [pump_eq_foldl_drop poll now pending k] at h
  exact (foldl_visit_not_panicked poll now _ _ h).1

theorem pumpUpTo_succ (poll : Nat → iCallbackExpected → Int → PollOutcome) (now : Int)
    (pending : List PendingCall) (i : Nat) (p : PendingCall) (hp : pending[i]? = some p) :
    pumpUpTo poll now pending (i + 1) = visit poll now (pumpUpTo poll now pending i) p := by
  unfold pumpUpTo
  rw [List.take_succ, hp, List.foldl_append]
  rfl

theorem countP_map_event (q : PumpAction → Bool) (hq : ∀ e, q (PumpAction.event e) = false)
    (l : List Event) : (l.map PumpAction.event).countP q = 0 := by
  induction l with
  | nil => rfl
  | cons e rest ih => simp [List.countP_cons, hq, ih]

theorem visitActions_polled (poll : Nat → iCallbackExpected → Int → PollOutcome) (now : Int)
    (q : PendingCall) (h : Nat) :
    (visitActions poll now q).countP (PumpAction.isPolledOf h) =
      if q.handle = h then 1 else 0 := by
  have hev := countP_map_event (PumpAction.isPolledOf h) (fun _ => rfl)
  unfold visitActions
  generalize poll q.record.CallbackAPI q.record.CallbackExpected q.record.CallbaseSize = res
  cases res <;> by_cases hq : q.handle = h <;>
    simp [List.countP_cons, PumpAction.isPolledOf, hq, hev]

/-- With distinct handles, only the actions of the record of handle `h` count for `h`. -/
theorem countP_flatMap_visitActions (poll : Nat → iCallbackExpected → Int → PollOutcome)
    (now : Int) (pred : PumpAction → Bool) (ps : List PendingCall) (p : PendingCall)
    (huniq : (ps.map PendingCall.handle).Nodup) (hp : p ∈ ps)
    (hother : ∀ q : PendingCall, q.handle ≠ p.handle →
      (visitActions poll now q).countP pred = 0) :
    (ps.flatMap (visitActions poll now)).countP pred =
      (visitActions poll now p).countP pred := by
  induction ps with
  | nil => simp at hp
  | cons q rest ih =>
    rw [List.map_cons, List.nodup_cons] at huniq
    rw [List.flatMap_cons, List.countP_append]
    have hrest0 : ∀ r ∈ rest, r.handle ≠ q.handle := by
      intro r hr heq
      exact huniq.1 (heq ▸ List.mem_map_of_mem PendingCall.handle hr)
    rcases List.mem_cons.mp hp with rfl | hmem
    · have : (rest.flatMap (visitActions poll now)).countP pred = 0 := by
        clear ih huniq hp
        induction rest with
        | nil => rfl
        | cons r rest2 ih2 =>
          rw [List.flatMap_cons, List.countP_append,
            hother r (hrest0 r (List.mem_cons_self _ _)),
            ih2 (fun r2 hr2 => hrest0 r2 (List.mem_cons_of_mem _ hr2))]
      rw [this, Nat.add_zero]
    · rw [hother q (fun heq => hrest0 p hmem heq.symm), ih huniq.2 hmem, Nat.zero_add]

theorem visit_pending_mem (poll : Nat → iCallbackExpected → Int → PollOutcome) (now : Int)
    (st : PumpState) (q p : PendingCall) (hp : p ∈ st.pending)
    (hq : q.handle = p.handle →
      poll q.record.CallbackAPI q.record.CallbackExpected q.record.CallbaseSize =
        PollOutcome.notComplete) :
    p ∈ (visit poll now st q).pending := by
  unfold visit
  split
  · exact hp
  · have key : ∀ fired effs, p.handle ≠ q.handle →
        p ∈ (resolve now
          (PumpState.mk st.pending (st.log ++ [PumpAction.polled q.handle]) false) q fired
          effs).pending := by
      intro fired effs hne
      unfold resolve
      split
      · simp only [removePending, registerAll_eq, List.mem_filter, List.mem_append]
        exact ⟨Or.inl hp, by simpa using hne⟩
      · simp only [registerAll_eq, List.mem_append]
        exact Or.inl hp
    split
    · exact hp
    · rename_i hpoll
      exact key _ _ (fun heq => by rw [hq heq.symm] at hpoll; cases hpoll)
    · rename_i buffer hpoll
      exact key _ _ (fun heq => by rw [hq heq.symm] at hpoll; cases hpoll)

theorem foldl_visit_pending_mem (poll : Nat → iCallbackExpected → Int → PollOutcome)
    (now : Int) (todo : List PendingCall) (st : PumpState) (p : PendingCall)
    (hp : p ∈ st.pending)
    (hq : ∀ q ∈ todo, q.handle = p.handle →
      poll q.record.CallbackAPI q.record.CallbackExpected q.record.CallbaseSize =
        PollOutcome.notComplete) :
    p ∈ (todo.foldl (visit poll now) st).pending := by
  induction todo generalizing st with
  | nil => exact hp
  | cons q rest ih =>
    rw [List.foldl_cons]
    exact ih _ (visit_pending_mem poll now st q p hp (hq q (List.mem_cons_self _ _)))
      (fun r hr => hq r (List.mem_cons_of_mem _ hr))

/-- C12: for every list of score details, `uploadLeaderboardScore` does not fail on
`&scoreDetails[0]` (the appended zero makes the buffer non-empty, also for an empty list);
it issues one native call whose buffer starts with the caller's details in order, followed
by the appended `0`, and whose detail count is the number of details given. -/
theorem uploadLeaderboardScore_buffer (env : Env) (leaderboard : Nat)
    (uploadScoreMethod score : Int) (scoreDetails : List Int) :
    uploadLeaderboardScore env leaderboard uploadScoreMethod score scoreDetails =
      (Except.ok (env.nativeUploadLeaderboardScore leaderboard uploadScoreMethod score
          (scoreDetails ++ [0]) (scoreDetails.length : Int)),
        [Effect.ev (Event.native (NativeCall.UploadLeaderboardScore leaderboard
          uploadScoreMethod score (scoreDetails ++ [0]) (scoreDetails.length : Int)))]) ∧
    (scoreDetails ++ [0]).take scoreDetails.length = scoreDetails ∧
    (scoreDetails ++ [0]).length = scoreDetails.length + 1 ∧
    panics (uploadLeaderboardScore env leaderboard uploadScoreMethod score scoreDetails).2
      = [] := by
  have h : uploadLeaderboardScore env leaderboard uploadScoreMethod score scoreDetails =
      (Except.ok (env.nativeUploadLeaderboardScore leaderboard uploadScoreMethod score
          (scoreDetails ++ [0]) (scoreDetails.length : Int)),
        [Effect.ev (Event.native (NativeCall.UploadLeaderboardScore leaderboard
          uploadScoreMethod score (scoreDetails ++ [0]) (scoreDetails.length : Int)))]) := by
    simp [uploadLeaderboardScore]
  refine ⟨h, by simp, by simp, ?_⟩
  rw [h]
  rfl

theorem findIdx?_zero_none (l : Bytes) (h : 0 ∉ l) :
    l.findIdx? (fun b => b == 0) = none := by
  rw [List.findIdx?_eq_none_iff]
  intro x hx
  have : x ≠ 0 := fun hx0 => h (hx0 ▸ hx)
  simpa using this

theorem findIdx?_zero_split (pre rest : Bytes) (h : 0 ∉ pre) :
    (pre ++ 0 :: rest).findIdx? (fun b => b == 0) = some pre.length := by
  rw [List.findIdx?_append, findIdx?_zero_none pre h]
  simp [List.findIdx?_cons]

theorem first_zero_split (l : Bytes) (h : 0 ∈ l) :
    ∃ pre rest, l = pre ++ 0 :: rest ∧ 0 ∉ pre := by
  induction l with
  | nil => simp at h
  | cons b t ih =>
    by_cases hb : b = 0
    · exact ⟨[], t, by simp [hb], by simp⟩
    · have ht : 0 ∈ t := by
        rcases List.mem_cons.mp h with h1 | h1
        · exact absurd h1.symm hb
        · exact h1
      obtain ⟨pre, rest, h1, h2⟩ := ih ht
      refine ⟨b :: pre, rest, by simp [h1], ?_⟩
      simp only [List.mem_cons, not_or]
      exact ⟨fun h => hb h.symm, h2⟩

/-- C14: for every 1024-byte `steamErrMsg`: when the buffer contains a zero byte, `String`
returns exactly the bytes before the first zero byte, so the result has no zero byte and
fewer than 1024 bytes; when no byte is zero, `String` returns the empty string. -/
theorem steamErrMsg_String (s : steamErrMsg) :
    (0 ∈ s.bytes →
      ∃ rest, s.bytes = s.String ++ 0 :: rest ∧ 0 ∉ s.String ∧ s.String.length < 1024 ∧
        s.String = s.bytes.takeWhile (fun b => b != 0)) ∧
    (0 ∉ s.bytes → s.String = [] ∧ s.bytes.length = 1024) := by
  constructor
  · intro h0
    obtain ⟨pre, rest, hsplit, hpre⟩ := first_zero_split s.bytes h0
    have hS : s.String = pre := by
      unfold steamErrMsg.String
      rw [hsplit, findIdx?_zero_split pre rest hpre]
      simp
    have hlen := s.size
    rw [hsplit] at hlen
    simp at hlen
    refine ⟨rest, by rw [hS, hsplit], by rw [hS]; exact hpre, by rw [hS]; omega, ?_⟩
    rw [hS, hsplit]
    rw [List.takeWhile_append_of_pos]
    · simp
    · intro b hb
      have : b ≠ 0 := fun hb0 => hpre (hb0 ▸ hb)
      simpa using this
  · intro h0
    refine ⟨?_, s.size⟩
    unfold steamErrMsg.String
    rw [findIdx?_zero_none s.bytes h0]

/-- Witness of `steamErrMsg_String`: a buffer with a terminated message, and a buffer
without any zero byte. -/
theorem steamErrMsg_String_witness :
    (0 ∈ sampleErrMsg.bytes ∧ sampleErrMsg.String = [110, 111] ∧
      ∃ rest, sampleErrMsg.bytes = sampleErrMsg.String ++ 0 :: rest ∧
        0 ∉ sampleErrMsg.String ∧ sampleErrMsg.String.length < 1024 ∧
        sampleErrMsg.String = sampleErrMsg.bytes.takeWhile (fun b => b != 0)) ∧
    (0 ∉ fullErrMsg.bytes ∧ fullErrMsg.bytes.length = 1024 ∧ fullErrMsg.String = []) :=
  have h1 : 0 ∈ sampleErrMsg.bytes :=
    List.mem_append.mpr (Or.inr (List.mem_replicate.mpr ⟨by decide, rfl⟩))
  have h2 : 0 ∉ fullErrMsg.bytes :=
    fun h => absurd (List.mem_replicate.mp h).2 (by decide)
  ⟨⟨h1, by rfl, (steamErrMsg_String sampleErrMsg).1 h1⟩,
    ⟨h2, fullErrMsg.size, ((steamErrMsg_String fullErrMsg).2 h2).1⟩⟩

theorem installDirBuffer_length (env : Env) (appID : Nat) :
    (installDirBuffer env appID).length = 4096 := by
  rw [installDirBuffer, storeBytes, List.length_append, List.length_drop,
    List.length_replicate, List.length_take]
  omega

theorem installDirBound_eq (v : Nat) :
    installDirBound v = if v % 2 ^ 32 = 0 then 2 ^ 32 - 1 else v % 2 ^ 32 - 1 := by
  unfold installDirBound
  split <;> omega

/-- C15: with `u = v mod 2^32`, the slice `path[:uint32(v)-1]` of `GetAppInstallDir` is in
range exactly when `1 <= u <= 4097`, and the result is then the first `u - 1` bytes of the
4096-byte buffer; when the SDK returns `0` the bound wraps to `2^32 - 1` and the slice
expression panics. -/
theorem getAppInstallDir_bound (env : Env) (appID : Nat) :
    ((∃ s, (GetAppInstallDir env appID).1 = Except.ok s) ↔
      (1 ≤ (env.nativeGetAppInstallDir appID).1 % 2 ^ 32 ∧
        (env.nativeGetAppInstallDir appID).1 % 2 ^ 32 ≤ 4097)) ∧
    (1 ≤ (env.nativeGetAppInstallDir appID).1 % 2 ^ 32 →
      (env.nativeGetAppInstallDir appID).1 % 2 ^ 32 ≤ 4097 →
      (GetAppInstallDir env appID).1 =
        Except.ok ((installDirBuffer env appID).take
          ((env.nativeGetAppInstallDir appID).1 % 2 ^ 32 - 1))) ∧
    ((env.nativeGetAppInstallDir appID).1 % 2 ^ 32 = 0 →
      installDirBound (env.nativeGetAppInstallDir appID).1 = 2 ^ 32 - 1 ∧
      (GetAppInstallDir env appID).1 = Except.error Panic.sliceBoundsOutOfRange) ∧
    (installDirBuffer env appID).length = 4096 := by
  have hlen := installDirBuffer_length env appID
  have hb := installDirBound_eq (env.nativeGetAppInstallDir appID).1
  have hin : 1 ≤ (env.nativeGetAppInstallDir appID).1 % 2 ^ 32 →
      (env.nativeGetAppInstallDir appID).1 % 2 ^ 32 ≤ 4097 →
      (GetAppInstallDir env appID).1 =
        Except.ok ((installDirBuffer env appID).take
          ((env.nativeGetAppInstallDir appID).1 % 2 ^ 32 - 1)) := by
    intro h1 h2
    have hbound : installDirBound (env.nativeGetAppInstallDir appID).1 =
        (env.nativeGetAppInstallDir appID).1 % 2 ^ 32 - 1 := by
      rw [hb, if_neg (by omega)]
    simp only [GetAppInstallDir, hbound, hlen]
    rw [if_pos (by omega)]
  have hout : ¬ (1 ≤ (env.nativeGetAppInstallDir appID).1 % 2 ^ 32 ∧
      (env.nativeGetAppInstallDir appID).1 % 2 ^ 32 ≤ 4097) →
      (GetAppInstallDir env appID).1 = Except.error Panic.sliceBoundsOutOfRange := by
    intro h
    have hbound : ¬ installDirBound (env.nativeGetAppInstallDir appID).1 ≤ 4096 := by
      rw [hb]
      split <;> omega
    simp only [GetAppInstallDir, hlen]
    rw [if_neg hbound]
  refine ⟨⟨?_, fun h => ⟨_, hin h.1 h.2⟩⟩, hin, ?_, hlen⟩
  · rintro ⟨s, hs⟩
    by_contra hc
    rw [hout hc] at hs
    cases hs
  · intro h0
    refine ⟨by rw [hb, if_pos h0], hout (by omega)⟩

/-- Witness of `getAppInstallDir_bound`: the SDK reports 4 bytes (three and the terminating
zero), the result is the first three bytes; for an unknown application it reports 0 and
the call panics. -/
theorem getAppInstallDir_bound_witness :
    ((sampleEnv.nativeGetAppInstallDir 480).1 % 2 ^ 32 = 4 ∧
      (GetAppInstallDir sampleEnv 480).1 =
        Except.ok ((installDirBuffer sampleEnv 480).take 3) ∧
      (installDirBuffer sampleEnv 480).take 3 = [67, 58, 92]) ∧
    ((sampleEnv.nativeGetAppInstallDir 7).1 % 2 ^ 32 = 0 ∧
      installDirBound (sampleEnv.nativeGetAppInstallDir 7).1 = 2 ^ 32 - 1 ∧
      (GetAppInstallDir sampleEnv 7).1 = Except.error Panic.sliceBoundsOutOfRange) :=
  ⟨⟨by decide, (getAppInstallDir_bound sampleEnv 480).2.1 (by decide) (by decide), by rfl⟩,
    ⟨by decide, (getAppInstallDir_bound sampleEnv 7).2.2.1 (by decide)⟩⟩

/-- C16: in `FileWrite` and `FileRead` the element access `data[0]` succeeds exactly when
`data` is non-empty: for non-empty `data` there is no panic and the native call is made
with `len(data)`; for empty `data` the run is an index-out-of-range panic and the native
call is not made. -/
theorem fileAccess_index (env : Env) (file : String) (data : Bytes) :
    (((∃ b, (FileWrite env file data).1 = Except.ok b) ↔ data ≠ []) ∧
      ((∃ r, (FileRead env file data).1 = Except.ok r) ↔ data ≠ [])) ∧
    (data ≠ [] →
      FileWrite env file data =
        (Except.ok (env.nativeFileWrite file data % 256 != 0),
          [Effect.ev (Event.native (NativeCall.FileWrite file data data.length))]) ∧
      FileRead env file data =
        (Except.ok (wrapInt 32 ((env.nativeFileRead file data.length).1 : Int),
            storeBytes data ((env.nativeFileRead file data.length).2.take data.length)),
          [Effect.ev (Event.native (NativeCall.FileRead file data.length))])) ∧
    (data = [] →
      FileWrite env file data = (Except.error Panic.indexOutOfRange, []) ∧
      FileRead env file data = (Except.error Panic.indexOutOfRange, []) ∧
      (events (FileWrite env file data).2).countP Event.isNative = 0 ∧
      (events (FileRead env file data).2).countP Event.isNative = 0) := by
  have hne : data ≠ [] →
      FileWrite env file data =
        (Except.ok (env.nativeFileWrite file data % 256 != 0),
          [Effect.ev (Event.native (NativeCall.FileWrite file data data.length))]) ∧
      FileRead env file data =
        (Except.ok (wrapInt 32 ((env.nativeFileRead file data.length).1 : Int),
            storeBytes data ((env.nativeFileRead file data.length).2.take data.length)),
          [Effect.ev (Event.native (NativeCall.FileRead file data.length))]) := by
    intro h
    have hl : ¬ data.length = 0 := fun h0 => h (List.length_eq_zero.mp h0)
    exact ⟨by rw [FileWrite, if_neg hl], by rw [FileRead, if_neg hl]⟩
  have hemp : data = [] →
      FileWrite env file data = (Except.error Panic.indexOutOfRange, []) ∧
      FileRead env file data = (Except.error Panic.indexOutOfRange, []) := by
    intro h
    subst h
    exact ⟨rfl, rfl⟩
  refine ⟨⟨⟨?_, fun h => ⟨_, by rw [(hne h).1]⟩⟩, ⟨?_, fun h => ⟨_, by rw [(hne h).2]⟩⟩⟩, hne, ?_⟩
  · rintro ⟨b, hb⟩ h
    rw [(hemp h).1] at hb
    cases hb
  · rintro ⟨r, hr⟩ h
    rw [(hemp h).2] at hr
    cases hr
  · intro h
    refine ⟨(hemp h).1, (hemp h).2, ?_, ?_⟩
    · rw [(hemp h).1]; rfl
    · rw [(hemp h).2]; rfl

/-- Witness of `fileAccess_index`: a three-byte write and read succeed, an empty `data`
panics before the native call. -/
theorem fileAccess_index_witness :
    (FileWrite sampleEnv "save" [1, 2, 3] =
        (Except.ok true,
          [Effect.ev (Event.native (NativeCall.FileWrite "save" [1, 2, 3] 3))]) ∧
      (FileRead sampleEnv "save" [0, 0, 0, 0]).1 = Except.ok (3, [1, 2, 3, 0])) ∧
    (FileWrite sampleEnv "save" [] = (Except.error Panic.indexOutOfRange, []) ∧
      FileRead sampleEnv "save" [] = (Except.error Panic.indexOutOfRange, [])) :=
  ⟨⟨((fileAccess_index sampleEnv "save" [1, 2, 3]).2.1 (by decide)).1, by rfl⟩,
    ⟨((fileAccess_index sampleEnv "save" []).2.2 rfl).1,
      ((fileAccess_index sampleEnv "save" []).2.2 rfl).2.1⟩⟩

/-! ## The order of the list `GetGlobalStats` delivers -/

/-- The insertion point of the loop body: the new stat goes immediately before the first
placed stat whose value is less than or equal to its own, and at the end when there is
none. -/
theorem insertGlobalStat_position (values : List GlobalStat) (name : String) (v : Int) :
    insertGlobalStat values name v =
      values.takeWhile (fun vv => decide (vv.Value > v)) ++
        GlobalStat.mk name v :: values.dropWhile (fun vv => decide (vv.Value > v)) := by
  induction values with
  | nil => simp [insertGlobalStat_nil]
  | cons vv rest ih =>
    rw [insertGlobalStat_cons]
    by_cases h : v ≥ vv.Value
    · have hn : ¬ vv.Value > v := by omega
      simp [h, hn, List.takeWhile_cons, List.dropWhile_cons]
    · have hp : vv.Value > v := by omega
      simp [h, hp, List.takeWhile_cons, List.dropWhile_cons, ih]

/-- Inserting a stat tagged with a position later than every placed one keeps the tagged
list ordered by value descending, then by position descending. -/
theorem insertGlobalStat_tagged (placed : List (Nat × GlobalStat)) (k : Nat) (name : String)
    (v : Int)
    (hsorted : placed.Pairwise
      (fun x y => x.2.Value > y.2.Value ∨ (x.2.Value = y.2.Value ∧ x.1 > y.1)))
    (hlt : ∀ t ∈ placed, t.1 < k) :
    ∃ next : List (Nat × GlobalStat),
      next.map Prod.snd = insertGlobalStat (placed.map Prod.snd) name v ∧
      next.Perm ((k, GlobalStat.mk name v) :: placed) ∧
      next.Pairwise
        (fun x y => x.2.Value > y.2.Value ∨ (x.2.Value = y.2.Value ∧ x.1 > y.1)) := by
  induction placed with
  | nil => exact ⟨[(k, GlobalStat.mk name v)], by simp [insertGlobalStat_nil], List.Perm.refl _,
      List.pairwise_singleton _ _⟩
  | cons t rest ih =>
    rw [List.pairwise_cons] at hsorted
    rw [List.map_cons, insertGlobalStat_cons]
    by_cases h : v ≥ t.2.Value
    · refine ⟨(k, GlobalStat.mk name v) :: t :: rest, by simp [h], List.Perm.refl _, ?_⟩
      refine List.pairwise_cons.mpr ⟨?_, List.pairwise_cons.mpr hsorted⟩
      intro y hy
      have hyk : y.1 < k := hlt y hy
      have hyv : y.2.Value ≤ v := by
        rcases List.mem_cons.mp hy with rfl | hy2
        · exact h
        · rcases hsorted.1 y hy2 with h1 | h1
          · omega
          · omega
      simp only
      omega
    · obtain ⟨next, h1, h2, h3⟩ := ih hsorted.2 (fun u hu => hlt u (List.mem_cons_of_mem _ hu))
      refine ⟨t :: next, by simp [h, h1], ?_, ?_⟩
      · exact (List.Perm.cons t h2).trans (List.Perm.swap _ _ _)
      · refine List.pairwise_cons.mpr ⟨?_, h3⟩
        intro y hy
        rcases List.mem_cons.mp (h2.mem_iff.mp hy) with rfl | hy2
        · simp only
          omega
        · exact hsorted.1 y hy2

/-- The insertions of `GetGlobalStats` on tagged stats: position `k + i` for the `i`-th
name. -/
theorem deliveredFrom_tagged (env : Env) (names : List String) (k : Nat)
    (placed : List (Nat × GlobalStat))
    (hsorted : placed.Pairwise
      (fun x y => x.2.Value > y.2.Value ∨ (x.2.Value = y.2.Value ∧ x.1 > y.1)))
    (hlt : ∀ t ∈ placed, t.1 < k) :
    ∃ tagged : List (Nat × GlobalStat),
      tagged.map Prod.snd =
        names.foldl (fun values name =>
          insertGlobalStat values name (env.nativeGetGlobalStatInt name).2)
          (placed.map Prod.snd) ∧
      tagged.Perm (placed ++ (names.enumFrom k).map
        (fun p => (p.1, GlobalStat.mk p.2 (env.nativeGetGlobalStatInt p.2).2))) ∧
      tagged.Pairwise
        (fun x y => x.2.Value > y.2.Value ∨ (x.2.Value = y.2.Value ∧ x.1 > y.1)) := by
  induction names generalizing k placed with
  | nil => exact ⟨placed, by simp, by simp, hsorted⟩
  | cons n rest ih =>
    obtain ⟨next, h1, h2, h3⟩ :=
      insertGlobalStat_tagged placed k n (env.nativeGetGlobalStatInt n).2 hsorted hlt
    have hlt2 : ∀ t ∈ next, t.1 < k + 1 := by
      intro t ht
      rcases List.mem_cons.mp (h2.mem_iff.mp ht) with rfl | ht2
      · exact Nat.lt_succ_self _
      · exact Nat.lt_succ_of_lt (hlt t ht2)
    obtain ⟨tagged, g1, g2, g3⟩ := ih (k + 1) next h3 hlt2
    refine ⟨tagged, ?_, ?_, g3⟩
    · rw [g1, h1]
      rfl
    · refine g2.trans ?_
      rw [List.enumFrom_cons, List.map_cons]
      exact (List.Perm.append_right _ h2).trans (by simpa using List.perm_middle.symm)

/-- C13: the list `GetGlobalStats` delivers is in non-increasing order of `Value`; each new
stat is inserted immediately before the first placed stat whose value is less than or
equal to its own, else appended; and the delivered list is the input ordered by value
descending and, among equal values, by input position descending (the later name first).
It is the one list `successFunc` receives, which happens exactly when no lookup reports
an error; in particular, when no lookup reports an error `successFunc` receives that list
exactly once. -/
theorem getGlobalStats_order (env : Env) (names : List String) :
    (deliveredGlobalStats env names).Pairwise (fun x y => x.Value ≥ y.Value) ∧
    (∀ (values : List GlobalStat) (name : String) (v : Int),
      insertGlobalStat values name v =
        values.takeWhile (fun vv => decide (vv.Value > v)) ++
          GlobalStat.mk name v :: values.dropWhile (fun vv => decide (vv.Value > v))) ∧
    (∃ tagged : List (Nat × GlobalStat),
      tagged.map Prod.snd = deliveredGlobalStats env names ∧
      tagged.Perm (names.enum.map
        (fun p => (p.1, GlobalStat.mk p.2 (env.nativeGetGlobalStatInt p.2).2))) ∧
      tagged.Pairwise
        (fun x y => x.2.Value > y.2.Value ∨ (x.2.Value = y.2.Value ∧ x.1 > y.1))) ∧
    (∀ ret d, env.decodeGlobalStatsReceived ret = some d →
      (events (globalStatsSuccessFunc env names ret)).filter Event.isGlobalStatsSuccess =
        if names.all (fun n => !env.errGetGlobalStatInt n) then
          [Event.globalStatsSuccess (deliveredGlobalStats env names)]
        else []) ∧
    ((∀ n ∈ names, env.errGetGlobalStatInt n = false) →
      ∀ ret d, env.decodeGlobalStatsReceived ret = some d →
        (events (globalStatsSuccessFunc env names ret)).filter Event.isGlobalStatsSuccess =
          [Event.globalStatsSuccess (deliveredGlobalStats env names)]) := by
  have hrun : ∀ ret d, env.decodeGlobalStatsReceived ret = some d →
      (events (globalStatsSuccessFunc env names ret)).filter Event.isGlobalStatsSuccess =
        if names.all (fun n => !env.errGetGlobalStatInt n) then
          [Event.globalStatsSuccess (deliveredGlobalStats env names)]
        else [] := by
    intro ret d hd
    rw [globalStatsSuccessFunc_events env names ret d hd]
    have hnat : ∀ l : List String,
        (l.map (fun n => Event.native (NativeCall.GetGlobalStatInt n))).filter
          Event.isGlobalStatsSuccess = [] := by
      intro l
      induction l with
      | nil => rfl
      | cons x rest ih => simp [List.filter_cons, Event.isGlobalStatsSuccess]
    have hpre : (Event.printData d ::
        (attemptedLookups env names).map
          (fun n => Event.native (NativeCall.GetGlobalStatInt n))).filter
        Event.isGlobalStatsSuccess = [] := by
      rw [List.filter_cons_of_neg (by simp [Event.isGlobalStatsSuccess]), hnat]
    rw [List.filter_append, hpre, List.nil_append]
    by_cases hall : names.all (fun n => !env.errGetGlobalStatInt n) = true
    · rw [if_pos hall]
      rfl
    · rw [if_neg hall]
      rfl
  refine ⟨deliveredFrom_sorted env names [] List.Pairwise.nil,
    insertGlobalStat_position, ?_, hrun, ?_⟩
  · obtain ⟨tagged, h1, h2, h3⟩ :=
      deliveredFrom_tagged env names 0 [] List.Pairwise.nil (by simp)
    exact ⟨tagged, by simpa [deliveredGlobalStats] using h1, by simpa [List.enum] using h2, h3⟩
  · intro hno ret d hd
    have hall : names.all (fun n => !env.errGetGlobalStatInt n) = true := by
      rw [List.all_eq_true]
      intro n hn
      simp [hno n hn]
    rw [hrun ret d hd, if_pos hall]

/-- Witness of `getGlobalStats_order`: `x` and `y` both have value `0`, `y` is named later
and is delivered first; `a = 5` precedes both. -/
theorem getGlobalStats_order_witness :
    deliveredGlobalStats sampleEnv ["x", "a", "y"] =
      [GlobalStat.mk "a" 5, GlobalStat.mk "y" 0, GlobalStat.mk "x" 0] ∧
    sampleEnv.decodeGlobalStatsReceived [0, 1] = some (GlobalStatsReceived_t.mk [0, 1]) ∧
    (events (globalStatsSuccessFunc sampleEnv ["x", "a", "y"] [0, 1])).filter
        Event.isGlobalStatsSuccess =
      [Event.globalStatsSuccess
        [GlobalStat.mk "a" 5, GlobalStat.mk "y" 0, GlobalStat.mk "x" 0]] :=
  ⟨by decide, by decide,
    ((getGlobalStats_order sampleEnv ["x", "a", "y"]).2.2.2.2 (fun _ _ => rfl) [0, 1]
      (GlobalStatsReceived_t.mk [0, 1]) (by decide)).trans (by decide)⟩

/-! ## Records registered during a pump pass -/

theorem visit_log_polled (poll : Nat → iCallbackExpected → Int → PollOutcome) (now : Int)
    (st : PumpState) (p : PendingCall) (h : Nat) (hne : p.handle ≠ h) :
    (visit poll now st p).log.countP (PumpAction.isPolledOf h) =
      st.log.countP (PumpAction.isPolledOf h) := by
  have hev := countP_map_event (PumpAction.isPolledOf h) (fun _ => rfl)
  have key : ∀ fired effs, PumpAction.isPolledOf h fired = false →
      (resolve now (PumpState.mk st.pending (st.log ++ [PumpAction.polled p.handle]) false) p
        fired effs).log.countP (PumpAction.isPolledOf h) =
      st.log.countP (PumpAction.isPolledOf h) := by
    intro fired effs hf
    have hp0 : PumpAction.isPolledOf h (PumpAction.polled p.handle) = false := by
      simp [PumpAction.isPolledOf, hne]
    unfold resolve
    split <;> simp [List.countP_append, List.countP_cons, hev, hf, hp0]
  unfold visit
  split
  · rfl
  · split
    · simp [List.countP_append, List.countP_cons, PumpAction.isPolledOf, hne]
    · exact key _ _ rfl
    · exact key _ _ rfl

theorem foldl_visit_log_polled (poll : Nat → iCallbackExpected → Int → PollOutcome)
    (now : Int) (todo : List PendingCall) (st : PumpState) (h : Nat)
    (hfresh : h ∉ todo.map PendingCall.handle) :
    (todo.foldl (visit poll now) st).log.countP (PumpAction.isPolledOf h) =
      st.log.countP (PumpAction.isPolledOf h) := by
  induction todo generalizing st with
  | nil => rfl
  | cons q rest ih =>
    rw [List.map_cons, List.mem_cons, not_or] at hfresh
    rw [List.foldl_cons, ih _ hfresh.2, visit_log_polled poll now st q h
      (fun heq => hfresh.1 heq.symm)]

theorem visitActions_polledHandle (poll : Nat → iCallbackExpected → Int → PollOutcome)
    (now : Int) (p : PendingCall) :
    (visitActions poll now p).filterMap PumpAction.polledHandle? = [p.handle] := by
  have hev : ∀ l : List Event,
      (l.map PumpAction.event).filterMap PumpAction.polledHandle? = [] := by
    intro l
    induction l with
    | nil => rfl
    | cons e rest ih => simp [List.filterMap_cons, PumpAction.polledHandle?]
  unfold visitActions
  generalize poll p.record.CallbackAPI p.record.CallbackExpected p.record.CallbaseSize = res
  cases res <;> simp [List.filterMap_cons, PumpAction.polledHandle?, hev]

theorem countP_flatMap_visitActions_ge (poll : Nat → iCallbackExpected → Int → PollOutcome)
    (now : Int) (pred : PumpAction → Bool) (ps : List PendingCall) (q : PendingCall)
    (hq : q ∈ ps) :
    (visitActions poll now q).countP pred ≤
      (ps.flatMap (visitActions poll now)).countP pred := by
  induction ps with
  | nil => simp at hq
  | cons a rest ih =>
    rw [List.flatMap_cons, List.countP_append]
    rcases List.mem_cons.mp hq with rfl | h
    · exact Nat.le_add_right _ _
    · exact le_trans (ih h) (Nat.le_add_left _ _)

/-- The record a resolved visit registered is in the pending set right after the visit,
when its handle differs from the handle of the visited record. -/
theorem visit_registered_mem (poll : Nat → iCallbackExpected → Int → PollOutcome) (now : Int)
    (st : PumpState) (p : PendingCall) (effs : List Effect)
    (hok : (visit poll now st p).panicked = false)
    (hfired :
      (poll p.record.CallbackAPI p.record.CallbackExpected p.record.CallbaseSize =
          PollOutcome.aborted ∧ effs = p.record.TimeoutFunc now (now - p.issuedAt)) ∨
      (∃ buffer, poll p.record.CallbackAPI p.record.CallbackExpected p.record.CallbaseSize =
          PollOutcome.completed buffer ∧ effs = p.record.SuccessFunc buffer))
    (r : CallbackArgs) (hr : r ∈ registered effs) (hne : r.CallbackAPI ≠ p.handle) :
    PendingCall.mk r now ∈ (visit poll now st p).pending := by
  have hst := (visit_not_panicked poll now st p hok).1
  have key : ∀ fired st2, (resolve now st2 p fired effs).panicked = false →
      PendingCall.mk r now ∈ (resolve now st2 p fired effs).pending := by
    intro fired st2 h2
    rw [resolve_not_panicked _ _ _ _ _ h2]
    simp only [removePending, registerAll_eq, List.mem_filter, List.mem_append, List.mem_map]
    exact ⟨Or.inr ⟨r, hr, rfl⟩, by simpa [PendingCall.handle] using hne⟩
  unfold visit at hok ⊢
  simp only [hst, Bool.false_eq_true, if_false] at hok ⊢
  rcases hfired with ⟨hpoll, rfl⟩ | ⟨buffer, hpoll, rfl⟩
  · rw [hpoll] at hok ⊢
    exact key _ _ hok
  · rw [hpoll] at hok ⊢
    exact key _ _ hok

/-- C11: a record that a continuation invoked by a pump pass registered, under a handle no
pending record had, is not polled in that pass. When no panic ends the pass, the pass polls
exactly the records that were pending when it started, in order, once each; the new record
is in the pending set when the pass ends, and the next pass polls it. -/
theorem registered_in_pass_not_polled (poll : Nat → iCallbackExpected → Int → PollOutcome)
    (now : Int) (ps : List PendingCall)
    (i : Nat) (p : PendingCall) (hp : ps[i]? = some p) (effs : List Effect)
    (hfired :
      (poll p.record.CallbackAPI p.record.CallbackExpected p.record.CallbaseSize =
          PollOutcome.aborted ∧ effs = p.record.TimeoutFunc now (now - p.issuedAt)) ∨
      (∃ buffer, poll p.record.CallbackAPI p.record.CallbackExpected p.record.CallbaseSize =
          PollOutcome.completed buffer ∧ effs = p.record.SuccessFunc buffer))
    (r : CallbackArgs) (hr : r ∈ registered effs)
    (hfresh : r.CallbackAPI ∉ ps.map PendingCall.handle) :
    (pump poll now ps).log.countP (PumpAction.isPolledOf r.CallbackAPI) = 0 ∧
    ((pump poll now ps).panicked = false →
      (pump poll now ps).log.filterMap PumpAction.polledHandle? = ps.map PendingCall.handle ∧
      PendingCall.mk r now ∈ (pump poll now ps).pending ∧
      (∀ (poll2 : Nat → iCallbackExpected → Int → PollOutcome) (now2 : Int),
        (pump poll2 now2 (pump poll now ps).pending).panicked = false →
        1 ≤ (pump poll2 now2 (pump poll now ps).pending).log.countP
          (PumpAction.isPolledOf r.CallbackAPI))) := by
  have hmem : p ∈ ps := List.getElem?_mem hp
  have hcount : (pump poll now ps).log.countP (PumpAction.isPolledOf r.CallbackAPI) = 0 := by
    have := foldl_visit_log_polled poll now ps (PumpState.mk ps [] false) r.CallbackAPI hfresh
    simpa [pump] using this
  refine ⟨hcount, ?_⟩
  intro hok
  have hpending : PendingCall.mk r now ∈ (pump poll now ps).pending := by
    rw [pump_eq_foldl_drop poll now ps (i + 1)]
    refine foldl_visit_pending_mem poll now _ _ _ ?_ ?_
    · rw [pumpUpTo_succ poll now ps i p hp]
      refine visit_registered_mem poll now _ p effs ?_ hfired r hr ?_
      · rw [← pumpUpTo_succ poll now ps i p hp]
        exact pumpUpTo_not_panicked poll now ps (i + 1) hok
      · intro heq
        exact hfresh (heq ▸ List.mem_map_of_mem PendingCall.handle hmem)
    · intro q hq heq
      have hqr : q.handle = r.CallbackAPI := heq
      exact absurd (hqr ▸ List.mem_map_of_mem PendingCall.handle (List.mem_of_mem_drop hq))
        hfresh
  refine ⟨?_, hpending, ?_⟩
  · rw [pump_log poll now ps hok]
    generalize ps = l
    induction l with
    | nil => rfl
    | cons a rest ih =>
      rw [List.flatMap_cons, List.filterMap_append, visitActions_polledHandle, ih]
      rfl
  · intro poll2 now2 hok2
    rw [pump_log poll2 now2 _ hok2]
    refine le_trans ?_ (countP_flatMap_visitActions_ge poll2 now2 _ _ _ hpending)
    rw [visitActions_polled]
    simp [PendingCall.handle, CallbackArgs.CallbackAPI]

/-- Witness of `registered_in_pass_not_polled`: the find-step record of `ReadLeadboard`
completes in the pass and registers the download record (handle `4`), which the pass does
not poll and leaves pending. -/
theorem registered_in_pass_not_polled_witness :
    (pump samplePoll 7 samplePending).panicked = false ∧
    (4 ∉ samplePending.map PendingCall.handle) ∧
    (pump samplePoll 7 samplePending).log.filterMap PumpAction.polledHandle? = [5, 11] ∧
    (pump samplePoll 7 samplePending).log.countP (PumpAction.isPolledOf 4) = 0 ∧
    PendingCall.mk (downloadRecord sampleEnv 2 4) 7 ∈ (pump samplePoll 7 samplePending).pending :=
  have h := registered_in_pass_not_polled samplePoll 7 samplePending 0
    (PendingCall.mk (CallbackArgs.mk 5 iCallbackExpected.LeaderboardFindResult_t 2
      (readFindSuccessFunc sampleEnv 0 0 10 2)
      (fun callbackTime callbackSpend => callerTimeoutFunc callbackTime callbackSpend)) 5)
    rfl (readFindSuccessFunc sampleEnv 0 0 10 2 [3, 1])
    (Or.inr ⟨[3, 1], rfl, rfl⟩) (downloadRecord sampleEnv 2 4)
    (List.mem_singleton.mpr rfl) (by decide)
  ⟨by decide, by decide, (h.2 (by decide)).1.trans (by decide), h.1, (h.2 (by decide)).2.1⟩

end Steamworks
